import Mathlib

/-!
Verification development for the PYRO artifact-pack analysis pipeline
(PYRO_ARTIFACT_PACK_ANALYSIS.py).  The Python source is shallowly embedded:
documents are character lists, the regex passes are hand-compiled into
deterministic scanners (each scanner's doc comment names the regex it
embeds; all the regexes involved are backtracking-free on their character
classes, so the compilation is direct), Python dicts (which preserve
insertion order) are association lists keyed by `String`, Python sets are
deduplicated lists, and fallible parsing is an `Option` input.
-/

namespace Pyro

set_option maxRecDepth 40000

/-- Lowercase a character list (Python `str.lower` / `re.IGNORECASE`; the
inputs of interest are ASCII, where `Char.toLower` agrees with Python). -/
def lcL (l : List Char) : List Char := l.map Char.toLower

/-- Test whether `pat` (already lowercase) is a prefix of `t` compared
case-insensitively: the literal part of an IGNORECASE regex match. -/
def lcHasPre : List Char → List Char → Bool
  | [], _ => true
  | _ :: _, [] => false
  | p :: ps, c :: cs => p == c.toLower && lcHasPre ps cs

/-- Python regex `\w` on an ASCII string: letters, digits, underscore. -/
def isW (c : Char) : Bool := c.isAlphanum || c == '_'

/-- Python regex `\s`: the six ASCII whitespace characters. -/
def isSpaceCh (c : Char) : Bool :=
  c == ' ' || c == '\t' || c == '\n' || c == '\r' || c == '\x0B' || c == '\x0C'

/-- `if x not in l: l.append(x)` — the unique-membership append used for
all `referenced_in_artifacts` lists, and the observable behaviour of
`set.add` on a set modelled as a deduplicated list. -/
def addUnique (a : String) (l : List String) : List String :=
  if a ∈ l then l else l ++ [a]

/-- Python dict lookup on a dict modelled as an insertion-ordered
association list. -/
def alookup {α : Type} (k : String) : List (String × α) → Option α
  | [] => none
  | kv :: rest => if kv.1 = k then some kv.2 else alookup k rest

/-- Python `d[k] = f(d[k])` (in-place value mutation of an existing key). -/
def aupdate {α : Type} (k : String) (f : α → α) : List (String × α) → List (String × α)
  | [] => []
  | kv :: rest => if kv.1 = k then (kv.1, f kv.2) :: rest else kv :: aupdate k f rest

/-- `if k not in d: d[k] = v` — create the record on first sighting. -/
def aensure {α : Type} (k : String) (v : α) (l : List (String × α)) : List (String × α) :=
  if (alookup k l).isSome then l else l ++ [(k, v)]

/-! ## Data model (section 3 of the design: the registry records) -/

/-- One entry of `analysis_results['repositories_found']` (the dict created
at lines 332-343 / 390-402 of the source). -/
structure RepoInfo where
  organization : String
  repository_name : String
  repository_url : String
  referenced_in_artifacts : List String
  referenced_in_packs : List String
  full_urls_found : List String
  priority : String
  language : String
  stars : Nat
  license : String
  tool_name : Option String
  priority_score : Option Nat
  priority_category : Option String
  estimated_importance : Option Nat
  fork_recommended : Option Bool
deriving DecidableEq

/-- One entry of `analysis_results['tools_found']` (lines 364-373). -/
structure ToolInfo where
  tool_name : String
  repository_url : String
  priority : String
  language : String
  description : String
  referenced_in_artifacts : List String
  referenced_in_packs : List String
  patterns_matched : List String
deriving DecidableEq

/-- One entry of `analysis_results['dependencies_found']` (lines 423-428). -/
structure DepInfo where
  domain : String
  urls_found : List String
  referenced_in_artifacts : List String
  referenced_in_packs : List String
deriving DecidableEq

/-- The `pack_info` summary appended per analyzed bundle (lines 252-257). -/
structure PackInfo where
  file_name : String
  file_size : Nat
  artifacts_count : Nat
deriving DecidableEq

/-- A `sources` entry of a parsed artifact: optionally carries a `query`. -/
structure SourceEntry where
  query : Option (List Char)
deriving DecidableEq

/-- The structured (YAML) form of an artifact document: an optional `name`
field and an optional `sources` list (absent key = `none`). -/
structure ArtifactData where
  name : Option String
  sources : Option (List SourceEntry)
deriving DecidableEq

/-- One configuration file found inside a bundle: its base name (stem), its
raw text, and the outcome of the best-effort structured parse (`none` both
for a parse failure and for a falsy parse result, matching the bare
`except` at lines 294-296). -/
structure DocInput where
  stem : String
  content : List Char
  parsed : Option ArtifactData
deriving DecidableEq

/-- One bundle on disk: `files = none` models an extraction failure
(the `except` at lines 267-269); `files = some docs` models a successful
extraction yielding the recursively enumerated artifact files. -/
structure BundleInput where
  name : String
  size : Nat
  files : Option (List DocInput)
deriving DecidableEq

/-- `self.analysis_results` (lines 34-50).  The three fork-candidate
buckets hold registry keys: the Python lists append the registry's own
dict objects, so an entry is a reference into `repositories_found`, which
a key models faithfully.  The run metadata (wall-clock timestamp) is not
modelled. -/
structure AnalysisState where
  artifact_packs_analyzed : List PackInfo
  total_artifacts : Nat
  repositories_found : List (String × RepoInfo)
  tools_found : List (String × ToolInfo)
  dependencies_found : List (String × DepInfo)
  organizations_found : List String
  fork_high : List String
  fork_medium : List String
  fork_low : List String
deriving DecidableEq

/-- The accumulator as initialized in `__init__` (lines 34-50). -/
def initial_analysis_state : AnalysisState :=
  { artifact_packs_analyzed := [], total_artifacts := 0,
    repositories_found := [], tools_found := [], dependencies_found := [],
    organizations_found := [], fork_high := [], fork_medium := [], fork_low := [] }

/-! ## The known-tools catalog (lines 53-194)

Each regex of the catalog is compiled to one of four shapes: a plain
case-insensitive literal, a literal with word boundaries on both sides
(`\b..\b`, where the pattern starts and ends with a `\w` character), a
literal with a trailing word boundary only, or a sequence of literals
separated by `.*` (whose gaps may not cross a newline, since `.` does not
match `\n` without DOTALL).  The original regex source string is kept
alongside, because `find_known_tools` stores it in `patterns_matched`. -/

inductive PatKind where
  | lit : String → PatKind
  | word : String → PatKind
  | litB : String → PatKind
  | seq : List String → PatKind
deriving DecidableEq

/-- A catalog pattern: the regex source text and its compiled shape. -/
structure PatSpec where
  src : String
  kind : PatKind
deriving DecidableEq

/-- One catalog entry (repo URL, patterns, tier, language, description). -/
structure KnownTool where
  repo_url : String
  patterns : List PatSpec
  priority : String
  language : String
  description : String
deriving DecidableEq

/-- Contiguous-substring test (Python `s in t`, `re.search` of a plain
literal): `p` occurs as a prefix of some suffix of `t`. -/
def hasSub (p : List Char) : List Char → Bool
  | [] => List.isPrefixOf p []
  | c :: cs => List.isPrefixOf p (c :: cs) || hasSub p cs

/-- `re.search` of a plain literal with IGNORECASE: case-insensitive
substring containment. -/
def litHit (s t : List Char) : Bool := hasSub (lcL s) (lcL t)

/-- No word character right before the candidate position (`\b` when the
pattern starts with a `\w` character). -/
def boundaryB : Option Char → Bool
  | none => true
  | some c => !isW c

/-- No word character right after the match (`\b` when the pattern ends
with a `\w` character). -/
def tailBoundary : List Char → Bool
  | [] => true
  | c :: _ => !isW c

/-- Scan for `pat` (lowercase) with word boundaries on both sides,
tracking the previous character. -/
def wordHitAux (p : List Char) : Option Char → List Char → Bool
  | _, [] => false
  | prev, c :: cs =>
    (boundaryB prev && lcHasPre p (c :: cs) && tailBoundary ((c :: cs).drop p.length))
      || wordHitAux p (some c) cs

/-- `re.search(r'\b<s>\b', t, IGNORECASE)` for a literal `s` whose first
and last characters are word characters. -/
def wordHit (s t : List Char) : Bool := wordHitAux (lcL s) none t

/-- Scan for `pat` (lowercase) followed by a word boundary. -/
def litBHitAux (p : List Char) : List Char → Bool
  | [] => false
  | c :: cs =>
    (lcHasPre p (c :: cs) && tailBoundary ((c :: cs).drop p.length)) || litBHitAux p cs

/-- `re.search(r'<s>\b', t, IGNORECASE)` for a literal `s` ending in a
word character (the leading part of `s` needs no boundary). -/
def litBHit (s t : List Char) : Bool := litBHitAux (lcL s) t

/-- Gap admissible for `.*` without DOTALL: no newline. -/
def gapOkB (l : List Char) : Bool := l.all (fun c => c != '\n')

/-- After the first literal matched, find the remaining literals in order,
each preceded by a newline-free gap (`.*`).  Inputs are lowercase. -/
def seqAfter : List (List Char) → List Char → Bool
  | [], _ => true
  | p :: ps, t =>
    (List.range (t.length + 1)).any (fun i =>
      gapOkB (t.take i) && List.isPrefixOf p (t.drop i) && seqAfter ps (t.drop (i + p.length)))

/-- `re.search(r'<p1>.*<p2>...', t, IGNORECASE)`: the first literal may
start anywhere, the later ones follow within the same line span. -/
def seqHit (parts : List String) (t : List Char) : Bool :=
  match parts.map (fun s => lcL s.toList) with
  | [] => true
  | p :: ps =>
    let t0 := lcL t
    (List.range (t0.length + 1)).any (fun i =>
      List.isPrefixOf p (t0.drop i) && seqAfter ps (t0.drop (i + p.length)))

/-- Dispatch a compiled catalog pattern against a text. -/
def patMatches : PatKind → List Char → Bool
  | .lit s, t => litHit s.toList t
  | .word s, t => wordHit s.toList t
  | .litB s, t => litBHit s.toList t
  | .seq ps, t => seqHit ps t

/-- The fixed known-tools table, `self.known_tools` (lines 53-194),
with each regex compiled as described above. -/
def known_tools : List (String × KnownTool) := [
  ("hayabusa",
   { repo_url := "https://github.com/Yamato-Security/hayabusa",
     patterns := [⟨"hayabusa", .lit "hayabusa"⟩, ⟨"Hayabusa", .lit "Hayabusa"⟩],
     priority := "critical", language := "rust",
     description := "Windows event log fast forensics timeline generator" }),
  ("uac",
   { repo_url := "https://github.com/tclahr/uac",
     patterns := [⟨"\\buac\\b", .word "uac"⟩, ⟨"UAC", .lit "UAC"⟩,
                  ⟨"unix.*artifacts.*collector", .seq ["unix", "artifacts", "collector"]⟩],
     priority := "high", language := "shell",
     description := "Unix-like Artifacts Collector" }),
  ("chainsaw",
   { repo_url := "https://github.com/countercept/chainsaw",
     patterns := [⟨"chainsaw", .lit "chainsaw"⟩, ⟨"Chainsaw", .lit "Chainsaw"⟩],
     priority := "high", language := "rust",
     description := "Rapidly Search and Hunt through Windows Event Logs" }),
  ("sigma",
   { repo_url := "https://github.com/SigmaHQ/sigma",
     patterns := [⟨"sigma", .lit "sigma"⟩, ⟨"Sigma", .lit "Sigma"⟩,
                  ⟨"sigma.*rule", .seq ["sigma", "rule"]⟩],
     priority := "critical", language := "python",
     description := "Generic Signature Format for SIEM Systems" }),
  ("yara",
   { repo_url := "https://github.com/VirusTotal/yara",
     patterns := [⟨"yara", .lit "yara"⟩, ⟨"YARA", .lit "YARA"⟩,
                  ⟨"\\.yar\\b", .litB ".yar"⟩, ⟨"\\.yara\\b", .litB ".yara"⟩],
     priority := "critical", language := "c",
     description := "Pattern matching engine for malware research" }),
  ("volatility",
   { repo_url := "https://github.com/volatilityfoundation/volatility3",
     patterns := [⟨"volatility", .lit "volatility"⟩, ⟨"Volatility", .lit "Volatility"⟩,
                  ⟨"vol\\.py", .lit "vol.py"⟩],
     priority := "critical", language := "python",
     description := "Advanced memory forensics framework" }),
  ("plaso",
   { repo_url := "https://github.com/log2timeline/plaso",
     patterns := [⟨"plaso", .lit "plaso"⟩, ⟨"Plaso", .lit "Plaso"⟩,
                  ⟨"log2timeline", .lit "log2timeline"⟩],
     priority := "high", language := "python",
     description := "Super timeline all the things" }),
  ("autopsy",
   { repo_url := "https://github.com/sleuthkit/autopsy",
     patterns := [⟨"autopsy", .lit "autopsy"⟩, ⟨"Autopsy", .lit "Autopsy"⟩],
     priority := "high", language := "java",
     description := "Digital forensics platform" }),
  ("sleuthkit",
   { repo_url := "https://github.com/sleuthkit/sleuthkit",
     patterns := [⟨"sleuthkit", .lit "sleuthkit"⟩, ⟨"SleuthKit", .lit "SleuthKit"⟩,
                  ⟨"tsk_", .lit "tsk_"⟩],
     priority := "high", language := "c",
     description := "Library and collection of command line tools" }),
  ("capa",
   { repo_url := "https://github.com/mandiant/capa",
     patterns := [⟨"\\bcapa\\b", .word "capa"⟩, ⟨"CAPA", .lit "CAPA"⟩],
     priority := "high", language := "python",
     description := "Automatically identify capabilities in executable files" }),
  ("osquery",
   { repo_url := "https://github.com/osquery/osquery",
     patterns := [⟨"osquery", .lit "osquery"⟩, ⟨"OSQuery", .lit "OSQuery"⟩],
     priority := "high", language := "cpp",
     description := "SQL powered operating system instrumentation framework" }),
  ("regripper",
   { repo_url := "https://github.com/keydet89/RegRipper3.0",
     patterns := [⟨"regripper", .lit "regripper"⟩, ⟨"RegRipper", .lit "RegRipper"⟩,
                  ⟨"rip\\.pl", .lit "rip.pl"⟩],
     priority := "medium", language := "perl",
     description := "Windows Registry data extraction tool" }),
  ("evtx",
   { repo_url := "https://github.com/omerbenamram/evtx",
     patterns := [⟨"evtx", .lit "evtx"⟩, ⟨"EVTX", .lit "EVTX"⟩,
                  ⟨"\\.evtx", .lit ".evtx"⟩],
     priority := "high", language := "rust",
     description := "Windows XML Event Log parser" }),
  ("loki",
   { repo_url := "https://github.com/Neo23x0/Loki",
     patterns := [⟨"\\bloki\\b", .word "loki"⟩, ⟨"Loki", .lit "Loki"⟩],
     priority := "medium", language := "python",
     description := "Simple IOC and YARA Scanner" }),
  ("thor",
   { repo_url := "https://github.com/NextronSystems/thor-lite",
     patterns := [⟨"thor", .lit "thor"⟩, ⟨"THOR", .lit "THOR"⟩],
     priority := "medium", language := "go",
     description := "Compromise Assessment Scanner" }),
  ("densityscout",
   { repo_url := "https://github.com/cert-ee/densityscout",
     patterns := [⟨"densityscout", .lit "densityscout"⟩, ⟨"DensityScout", .lit "DensityScout"⟩],
     priority := "low", language := "c",
     description := "Entropy analysis tool" }),
  ("pe-sieve",
   { repo_url := "https://github.com/hasherezade/pe-sieve",
     patterns := [⟨"pe-sieve", .lit "pe-sieve"⟩, ⟨"pesieve", .lit "pesieve"⟩],
     priority := "medium", language := "cpp",
     description := "Scans a given process for various types of in-memory modifications" }),
  ("hollows_hunter",
   { repo_url := "https://github.com/hasherezade/hollows_hunter",
     patterns := [⟨"hollows_hunter", .lit "hollows_hunter"⟩, ⟨"hollows-hunter", .lit "hollows-hunter"⟩],
     priority := "medium", language := "cpp",
     description := "Scans all running processes for various types of in-memory modifications" }),
  ("winpmem",
   { repo_url := "https://github.com/Velocidx/WinPmem",
     patterns := [⟨"winpmem", .lit "winpmem"⟩, ⟨"WinPmem", .lit "WinPmem"⟩],
     priority := "high", language := "cpp",
     description := "Windows physical memory acquisition tool" }),
  ("linpmem",
   { repo_url := "https://github.com/Velocidx/Linpmem",
     patterns := [⟨"linpmem", .lit "linpmem"⟩, ⟨"Linpmem", .lit "Linpmem"⟩],
     priority := "high", language := "cpp",
     description := "Linux physical memory acquisition tool" })
]

/-! ## Repository reference pass (`find_github_repositories`, lines 316-356)

The four patterns of `self.github_patterns` (lines 197-202) share the
shape `<literal>([^/]+)/(<class>+)`.  Because the character classes
exclude `/` while the separator is `/`, greedy matching is deterministic:
each group is the maximal nonempty run of its class, and backtracking can
never succeed where the maximal run fails.  `re.finditer` semantics are
reproduced by trying each position left to right and resuming after the
end of a match (non-overlapping). -/

/-- Stop set of the first capture group `[^/]+`. -/
def grpStop1 (c : Char) : Bool := c == '/'

/-- Stop set of the second capture group `[^/\s\)]+` of the first two
patterns. -/
def grpStop2 (c : Char) : Bool := c == '/' || isSpaceCh c || c == ')'

/-- Match `<lit>([^/]+)/(<stop2-class>+)` at the head of `t`
(IGNORECASE literal; groups keep the original characters).  Returns the
consumed length and the two groups. -/
def matchOrgRepoAt (lit : List Char) (stop2 : Char → Bool) (t : List Char) :
    Option (Nat × String × String) :=
  if lcHasPre lit t then
    let u := t.drop lit.length
    let g1 := u.takeWhile (fun c => !(c == '/'))
    if g1.isEmpty then none
    else
      match u.drop g1.length with
      | '/' :: u2 =>
        let g2 := u2.takeWhile (fun c => !(stop2 c))
        if g2.isEmpty then none
        else some (lit.length + g1.length + 1 + g2.length, g1.asString, g2.asString)
      | _ => none
  else none

/-- `https?://github\.com/([^/]+)/([^/\s\)]+)` at the head of `t`: after
the literal `http` an optional `s` (greedy, but if taking `s` the
mandatory `://` cannot match at the `s` position, so no backtracking
arises). -/
def matchP1At (t : List Char) : Option (Nat × String × String) :=
  if lcHasPre ("http".toList) t then
    match t.drop 4 with
    | c :: _ =>
      if c.toLower == 's' then
        (matchOrgRepoAt ("://github.com/".toList) grpStop2 (t.drop 5)).map
          (fun r => (r.1 + 5, r.2))
      else
        (matchOrgRepoAt ("://github.com/".toList) grpStop2 (t.drop 4)).map
          (fun r => (r.1 + 4, r.2))
    | [] => none
  else none

/-- `github\.com/([^/]+)/([^/\s\)]+)` at the head of `t`. -/
def matchP2At (t : List Char) : Option (Nat × String × String) :=
  matchOrgRepoAt ("github.com/".toList) grpStop2 t

/-- `raw\.githubusercontent\.com/([^/]+)/([^/]+)` at the head of `t`. -/
def matchP3At (t : List Char) : Option (Nat × String × String) :=
  matchOrgRepoAt ("raw.githubusercontent.com/".toList) grpStop1 t

/-- `api\.github\.com/repos/([^/]+)/([^/]+)` at the head of `t`. -/
def matchP4At (t : List Char) : Option (Nat × String × String) :=
  matchOrgRepoAt ("api.github.com/repos/".toList) grpStop1 t

/-- `re.finditer` driver: try the positional matcher at every position,
left to right; after a match of length `n`, skip its remaining `n - 1`
characters (non-overlapping).  Yields `(org, repo, whole-match)`. -/
def scanMatches (m : List Char → Option (Nat × String × String)) :
    Nat → List Char → List (String × String × String)
  | _, [] => []
  | Nat.succ k, _ :: rest => scanMatches m k rest
  | 0, t@(_ :: rest) =>
    match m t with
    | some (n, org, repo) => (org, repo, (t.take n).asString) :: scanMatches m (n - 1) rest
    | none => scanMatches m 0 rest

/-- All repository-pattern hits of a document, the four patterns applied
in the order of `self.github_patterns`. -/
def githubMatches (content : List Char) : List (String × String × String) :=
  scanMatches matchP1At 0 content ++ scanMatches matchP2At 0 content ++
  scanMatches matchP3At 0 content ++ scanMatches matchP4At 0 content

/-- Characters stripped from the end of a repository name:
`rstrip('.,;)')` (line 327). -/
def punctSet (c : Char) : Bool := c == '.' || c == ',' || c == ';' || c == ')'

/-- Chars before the first occurrence of `x`: Python `s.split(x)[0]`. -/
def takeUntilCh (x : Char) (l : List Char) : List Char :=
  l.takeWhile (fun c => !(c == x))

/-- Python `rstrip('.,;)')`. -/
def rstripPunct (l : List Char) : List Char := (l.reverse.dropWhile punctSet).reverse

/-- `repo.split('?')[0].split('#')[0].rstrip('.,;)')` (line 327): strip a
trailing query string, then a trailing fragment, then trailing
punctuation. -/
def cleanupRepo (s : String) : String :=
  (rstripPunct (takeUntilCh '#' (takeUntilCh '?' s.toList))).asString

/-- The registry identity key `f"{org}/{repo}"` built from a raw second
capture group (line 329). -/
def repoKeyOf (org repoRaw : String) : String := org ++ "/" ++ cleanupRepo repoRaw

/-- The fresh repository record created on first sighting by the URL pass
(lines 332-343): tier and language `unknown`, no tool association. -/
def freshRepo (org repo : String) : RepoInfo :=
  { organization := org, repository_name := repo,
    repository_url := "https://github.com/" ++ org ++ "/" ++ repo,
    referenced_in_artifacts := [], referenced_in_packs := [], full_urls_found := [],
    priority := "unknown", language := "unknown", stars := 0, license := "unknown",
    tool_name := none, priority_score := none, priority_category := none,
    estimated_importance := none, fork_recommended := none }

/-- The reference-accumulation step of the URL pass (lines 346-350):
append the document name uniquely, add the bundle name and the raw URL
to their sets.  No other field is touched. -/
def repoRefUpdate (name pack whole : String) (r : RepoInfo) : RepoInfo :=
  { r with referenced_in_artifacts := addUnique name r.referenced_in_artifacts,
           referenced_in_packs := addUnique pack r.referenced_in_packs,
           full_urls_found := addUnique whole r.full_urls_found }

/-- Process one URL-pattern hit (lines 322-353): sanitize the name, create
the record if absent, accumulate references, record the organization. -/
def processRepoHit (org repoRaw whole name pack : String) (st : AnalysisState) : AnalysisState :=
  let repo := cleanupRepo repoRaw
  let key := org ++ "/" ++ repo
  { st with
    repositories_found :=
      aupdate key (repoRefUpdate name pack whole)
        (aensure key (freshRepo org repo) st.repositories_found),
    organizations_found := addUnique org st.organizations_found }

/-- `find_github_repositories` (lines 316-356): fold the per-hit action
over all pattern matches in order.  (All four patterns produce two
groups, so the `len(match.groups()) >= 2` guard always holds.) -/
def find_github_repositories (content : List Char) (name pack : String)
    (st : AnalysisState) : AnalysisState :=
  (githubMatches content).foldl (fun s h => processRepoHit h.1 h.2.1 h.2.2 name pack s) st

/-! ## Known-tool pass (`find_known_tools`, lines 358-409) -/

/-- The fresh tool record created on first sighting (lines 364-373). -/
def freshTool (toolKey : String) (info : KnownTool) : ToolInfo :=
  { tool_name := toolKey, repository_url := info.repo_url, priority := info.priority,
    language := info.language, description := info.description,
    referenced_in_artifacts := [], referenced_in_packs := [], patterns_matched := [] }

/-- The tool-record accumulation step (lines 376-380): unique document
append, bundle set add, matched-pattern set add. -/
def toolRefUpdate (patStr name pack : String) (t : ToolInfo) : ToolInfo :=
  { t with referenced_in_artifacts := addUnique name t.referenced_in_artifacts,
           referenced_in_packs := addUnique pack t.referenced_in_packs,
           patterns_matched := addUnique patStr t.patterns_matched }

/-- Create-if-absent then accumulate, for one tool hit with one matched
pattern string. -/
def recordToolHit (toolKey : String) (info : KnownTool) (patStr name pack : String)
    (tools : List (String × ToolInfo)) : List (String × ToolInfo) :=
  aupdate toolKey (toolRefUpdate patStr name pack)
    (aensure toolKey (freshTool toolKey info) tools)

/-- First match of `re.search(r'github\.com/([^/]+)/([^/]+)', url)`
(line 384, case-sensitive: no IGNORECASE flag there). -/
def firstOrgRepo : List Char → Option (String × String)
  | [] => none
  | t@(_ :: rest) =>
    if List.isPrefixOf ("github.com/".toList) t then
      let u := t.drop 11
      let g1 := u.takeWhile (fun c => !(c == '/'))
      if g1.isEmpty then firstOrgRepo rest
      else
        match u.drop g1.length with
        | '/' :: u2 =>
          let g2 := u2.takeWhile (fun c => !(c == '/'))
          if g2.isEmpty then firstOrgRepo rest else some (g1.asString, g2.asString)
        | _ => firstOrgRepo rest
    else firstOrgRepo rest

/-- `repoFromUrl` applies `firstOrgRepo` to a catalog URL. -/
def repoFromUrl (url : String) : Option (String × String) := firstOrgRepo url.toList

/-- Python `'github.com' in url` (case-sensitive substring test). -/
def containsSubstr (needle hay : String) : Bool := hasSub needle.toList hay.toList

/-- The repository record synthesized by a tool hit when the record is
absent (lines 390-402): it carries the tool's tier and language and the
back-reference `tool_name` — this creation path is the only place the
`tool_name` key is ever set. -/
def freshToolRepo (org repo toolKey : String) (info : KnownTool) : RepoInfo :=
  { organization := org, repository_name := repo, repository_url := info.repo_url,
    referenced_in_artifacts := [], referenced_in_packs := [], full_urls_found := [],
    priority := info.priority, language := info.language, stars := 0, license := "unknown",
    tool_name := some toolKey, priority_score := none, priority_category := none,
    estimated_importance := none, fork_recommended := none }

/-- The repository update a tool hit performs on an existing record
(lines 404-409): accumulate references and (re)assert the tool's tier and
language.  Note it does not set `tool_name`. -/
def toolRepoRefUpdate (name pack : String) (info : KnownTool) (r : RepoInfo) : RepoInfo :=
  { r with referenced_in_artifacts := addUnique name r.referenced_in_artifacts,
           referenced_in_packs := addUnique pack r.referenced_in_packs,
           priority := info.priority, language := info.language }

/-- The tool-to-repository enrichment of a tool hit (lines 382-409). -/
def toolRepoUpdate (toolKey : String) (info : KnownTool) (name pack : String)
    (st : AnalysisState) : AnalysisState :=
  if containsSubstr "github.com" info.repo_url then
    match repoFromUrl info.repo_url with
    | some og =>
      let key := og.1 ++ "/" ++ og.2
      let repos := aensure key (freshToolRepo og.1 og.2 toolKey info) st.repositories_found
      { st with repositories_found := aupdate key (toolRepoRefUpdate name pack info) repos }
    | none => st
  else st

/-- `find_known_tools` (lines 358-409): for every catalog tool and every
one of its patterns, on a match record the tool hit (with the pattern's
source string) and run the repository enrichment.  There is no break:
several matching patterns of one tool each run the whole block. -/
def find_known_tools (content : List Char) (name pack : String)
    (st : AnalysisState) : AnalysisState :=
  known_tools.foldl (fun st1 tk =>
    tk.2.patterns.foldl (fun st2 p =>
      if patMatches p.kind content then
        toolRepoUpdate tk.1 tk.2 name pack
          { st2 with tools_found := recordToolHit tk.1 tk.2 p.src name pack st2.tools_found }
      else st2) st1) st

/-! ## Generic download pass (`find_download_urls`, lines 411-434) -/

/-- Match `https?://` at the head of `t` (IGNORECASE), returning the
consumed length (7 or 8). -/
def matchSchemeAt (t : List Char) : Option Nat :=
  if lcHasPre ("http".toList) t then
    match t.drop 4 with
    | c :: _ =>
      if c.toLower == 's' then
        if lcHasPre ("://".toList) (t.drop 5) then some 8 else none
      else
        if lcHasPre ("://".toList) (t.drop 4) then some 7 else none
    | [] => none
  else none

/-- `l` ends with `ext` up to case (`ext` lowercase). -/
def endsWithLc (ext l : List Char) : Bool :=
  decide (ext.length ≤ l.length) && (lcL l).drop (l.length - ext.length) == ext

/-- Greedy `[^\s]+\.<ext>`: the longest prefix of `run` of length at least
`ext.length + 1` that ends with `ext` (the regex backtracks from the
maximal whitespace-free run, so the last admissible extension wins). -/
def lastEndingWith (ext run : List Char) : Option Nat :=
  (List.range (run.length + 1)).foldl
    (fun acc n =>
      if decide (ext.length + 1 ≤ n) && endsWithLc ext (run.take n) then some n else acc)
    none

/-- `re.finditer` of `https?://[^\s]+<ext>` (IGNORECASE): at each
position match the scheme, take the maximal whitespace-free run, and keep
the longest chunk ending with `ext`. -/
def scanDlSuffix (ext : List Char) : Nat → List Char → List String
  | _, [] => []
  | Nat.succ k, _ :: rest => scanDlSuffix ext k rest
  | 0, t@(_ :: rest) =>
    match matchSchemeAt t with
    | some sl =>
      let run := (t.drop sl).takeWhile (fun c => !isSpaceCh c)
      match lastEndingWith ext run with
      | some n => (t.take (sl + n)).asString :: scanDlSuffix ext (sl + n - 1) rest
      | none => scanDlSuffix ext 0 rest
    | none => scanDlSuffix ext 0 rest

/-- `re.finditer` of `https?://releases\.github\.com/[^\s]+`
(IGNORECASE). -/
def scanDlReleases : Nat → List Char → List String
  | _, [] => []
  | Nat.succ k, _ :: rest => scanDlReleases k rest
  | 0, t@(_ :: rest) =>
    match matchSchemeAt t with
    | some sl =>
      if lcHasPre ("releases.github.com/".toList) (t.drop sl) then
        let g := (t.drop (sl + 20)).takeWhile (fun c => !isSpaceCh c)
        if g.isEmpty then scanDlReleases 0 rest
        else (t.take (sl + 20 + g.length)).asString :: scanDlReleases (sl + 20 + g.length - 1) rest
      else scanDlReleases 0 rest
    | none => scanDlReleases 0 rest

/-- All download-pattern hits, the six patterns of
`self.download_patterns` (lines 205-212) in order. -/
def downloadMatches (content : List Char) : List String :=
  scanDlSuffix (".exe".toList) 0 content ++ scanDlSuffix (".zip".toList) 0 content ++
  scanDlSuffix (".tar.gz".toList) 0 content ++ scanDlSuffix (".deb".toList) 0 content ++
  scanDlSuffix (".rpm".toList) 0 content ++ scanDlReleases 0 content

/-- The part of a URL after the first `://`. -/
def afterSchemeSep : List Char → List Char
  | [] => []
  | c :: rest =>
    if List.isPrefixOf ("://".toList) (c :: rest) then (c :: rest).drop 3
    else afterSchemeSep rest

/-- A character ending the network-location part of a URL. -/
def netlocStop (c : Char) : Bool := c == '/' || c == '?' || c == '#'

/-- `urlparse(url).netloc` for the scheme-bearing URLs the download
patterns produce. -/
def domainOf (url : String) : String :=
  ((afterSchemeSep url.toList).takeWhile (fun c => !netlocStop c)).asString

/-- The fresh dependency record (lines 423-428). -/
def freshDep (dom : String) : DepInfo :=
  { domain := dom, urls_found := [], referenced_in_artifacts := [], referenced_in_packs := [] }

/-- The dependency-record accumulation step (lines 430-434). -/
def depRefUpdate (url name pack : String) (d : DepInfo) : DepInfo :=
  { d with urls_found := addUnique url d.urls_found,
           referenced_in_artifacts := addUnique name d.referenced_in_artifacts,
           referenced_in_packs := addUnique pack d.referenced_in_packs }

/-- Process one download-URL hit, keyed by its parsed domain. -/
def processDownloadHit (url name pack : String) (st : AnalysisState) : AnalysisState :=
  let dom := domainOf url
  let deps := aensure dom (freshDep dom) st.dependencies_found
  { st with dependencies_found := aupdate dom (depRefUpdate url name pack) deps }

/-- `find_download_urls` (lines 411-434). -/
def find_download_urls (content : List Char) (name pack : String)
    (st : AnalysisState) : AnalysisState :=
  (downloadMatches content).foldl (fun s u => processDownloadHit u name pack s) st

/-! ## Nested query pass (`analyze_vql_query`, lines 436-473)

The six executable patterns (lines 439-446) are compiled like the others.
For `(\w+\.exe)`-shaped patterns determinism again holds: `.` is not a
`\w` character, so only the maximal `\w` run can be followed by the
literal extension, and backtracking never succeeds where it fails. -/

/-- `re.finditer` of `(\w+<ext>)` (IGNORECASE), yielding group 1 — which
is the whole match for these patterns. -/
def scanWExt (ext : List Char) : Nat → List Char → List (List Char)
  | _, [] => []
  | Nat.succ k, _ :: rest => scanWExt ext k rest
  | 0, t@(c :: rest) =>
    if isW c then
      let run := t.takeWhile isW
      let after := t.dropWhile isW
      if lcHasPre ext after then
        (run ++ after.take ext.length) :: scanWExt ext (run.length + ext.length - 1) rest
      else scanWExt ext 0 rest
    else scanWExt ext 0 rest

/-- `re.finditer` of `<dir>(\w+)` (IGNORECASE) for a literal directory
such as `/usr/bin/`, yielding group 1. -/
def scanDirW (dir : List Char) : Nat → List Char → List (List Char)
  | _, [] => []
  | Nat.succ k, _ :: rest => scanDirW dir k rest
  | 0, t@(_ :: rest) =>
    if lcHasPre dir t then
      let g := (t.drop dir.length).takeWhile isW
      if g.isEmpty then scanDirW dir 0 rest
      else g :: scanDirW dir (dir.length + g.length - 1) rest
    else scanDirW dir 0 rest

/-- The literal part of `C:\\Windows\\System32\\(\w+\.exe)`, lowercase. -/
def sys32Lit : List Char := "c:\\windows\\system32\\".toList

/-- `re.finditer` of `C:\\Windows\\System32\\(\w+\.exe)` (IGNORECASE),
yielding group 1. -/
def scanSys32 : Nat → List Char → List (List Char)
  | _, [] => []
  | Nat.succ k, _ :: rest => scanSys32 k rest
  | 0, t@(_ :: rest) =>
    if lcHasPre sys32Lit t then
      let u := t.drop sys32Lit.length
      let run := u.takeWhile isW
      let after := u.dropWhile isW
      if !run.isEmpty && lcHasPre (".exe".toList) after then
        (run ++ after.take 4) :: scanSys32 (sys32Lit.length + run.length + 4 - 1) rest
      else scanSys32 0 rest
    else scanSys32 0 rest

/-- All `executable` tokens a query yields, the six patterns of
`exe_patterns` (lines 439-446) in order. -/
def vqlTokens (q : List Char) : List String :=
  (scanWExt (".exe".toList) 0 q ++ scanWExt (".dll".toList) 0 q ++
   scanWExt (".sys".toList) 0 q ++ scanDirW ("/usr/bin/".toList) 0 q ++
   scanDirW ("/bin/".toList) 0 q ++ scanSys32 0 q).map List.asString

/-- `any(re.search(p, executable, IGNORECASE) for p in patterns)`
(line 455). -/
def toolHitsTok (tok : String) (info : KnownTool) : Bool :=
  info.patterns.any (fun p => patMatches p.kind tok.toList)

/-- Cross-check one token against the whole catalog (lines 453-473); a
hit records the token itself in `patterns_matched`. -/
def processVqlToken (tok name pack : String)
    (tools : List (String × ToolInfo)) : List (String × ToolInfo) :=
  known_tools.foldl
    (fun ts tk => if toolHitsTok tok tk.2 then recordToolHit tk.1 tk.2 tok name pack ts else ts)
    tools

/-- `analyze_vql_query` (lines 436-473): only `tools_found` is touched. -/
def analyze_vql_query (q : List Char) (name pack : String)
    (st : AnalysisState) : AnalysisState :=
  { st with tools_found :=
      (vqlTokens q).foldl (fun ts tok => processVqlToken tok name pack ts) st.tools_found }

/-! ## Per-document and per-bundle drivers (lines 214-314) -/

/-- `analyze_artifact_file` (lines 284-314): the document identity is the
parsed `name` field, falling back to the file stem on a missing field or
a failed parse; the three text passes always run on the raw text; the
nested query pass runs only over the source entries of a successful
parse that has a `sources` key. -/
def analyze_artifact_file (d : DocInput) (pack : String) (st : AnalysisState) : AnalysisState :=
  let name :=
    match d.parsed with
    | some a => a.name.getD d.stem
    | none => d.stem
  let st1 := find_github_repositories d.content name pack st
  let st2 := find_known_tools d.content name pack st1
  let st3 := find_download_urls d.content name pack st2
  match d.parsed with
  | some a =>
    match a.sources with
    | some srcs =>
      srcs.foldl (fun s src =>
        match src.query with
        | some q => analyze_vql_query q name pack s
        | none => s) st3
    | none => st3
  | none => st3

/-- `analyze_artifact_pack` (lines 250-282): a failed extraction returns
before touching the accumulated results; a successful one counts the
artifact files, analyzes each, and appends the pack summary. -/
def analyze_artifact_pack (b : BundleInput) (st : AnalysisState) : AnalysisState :=
  match b.files with
  | none => st
  | some docs =>
    let st1 := { st with total_artifacts := st.total_artifacts + docs.length }
    let st2 := docs.foldl (fun s d => analyze_artifact_file d b.name s) st1
    { st2 with artifact_packs_analyzed := st2.artifact_packs_analyzed ++
        [{ file_name := b.name, file_size := b.size, artifacts_count := docs.length }] }

/-- The bundle loop of `analyze_all_packs` (lines 233-235). -/
def runPacks (packs : List BundleInput) (st : AnalysisState) : AnalysisState :=
  packs.foldl (fun s b => analyze_artifact_pack b s) st

/-- The two expected bundle file names (line 220). -/
def expected_pack_names : List String := ["artifact_pack.zip", "artifact_pack_v2.zip"]

/-! ## Priority scorer (`prioritize_fork_candidates`, lines 500-552) -/

/-- `hasattr(repo_info, 'tool_name')` (line 513): `repo_info` is a plain
dict, whose keys are not Python object attributes, so this reflective
test is `False` for every record — whether or not the record carries the
`tool_name` key. -/
def hasattr_tool_name (_ : RepoInfo) : Bool := false

/-- Truthiness of `repo_info.get('tool_name')`: a present, nonempty
string. -/
def toolNameTruthy (r : RepoInfo) : Bool :=
  match r.tool_name with
  | some s => !s.isEmpty
  | none => false

/-- The tier ladder of lines 515-520. -/
def tier_bonus (tier : String) : Nat :=
  if tier = "critical" then 100 else if tier = "high" then 50
  else if tier = "medium" then 25 else 0

/-- Factor 2 of the scorer (lines 512-520), guard included. -/
def tool_tier_term (r : RepoInfo) : Nat :=
  if hasattr_tool_name r && toolNameTruthy r then tier_bonus r.priority else 0

/-- The first reputable-organization allowlist (line 524). -/
def reputable_orgs_top : List String :=
  ["velocidx", "microsoft", "google", "mandiant", "fireeye"]

/-- The second, lower-weight allowlist (line 526). -/
def reputable_orgs_second : List String :=
  ["yamato-security", "countercept", "sigmahq"]

/-- Factor 3 of the scorer (lines 522-527). -/
def org_bonus (r : RepoInfo) : Nat :=
  let org := (lcL r.organization.toList).asString
  if org ∈ reputable_orgs_top then 30
  else if org ∈ reputable_orgs_second then 20 else 0

/-- The name keywords of line 531. -/
def name_keywords : List String := ["forensic", "security", "malware", "incident"]

/-- Factor 4 of the scorer (lines 529-532). -/
def keyword_bonus (r : RepoInfo) : Nat :=
  if name_keywords.any (fun kw => hasSub kw.toList (lcL r.repository_name.toList)) then 15
  else 0

/-- The full priority score (lines 505-532): the sequential accumulation
of the source is exactly this sum of the four factors. -/
def priority_score (r : RepoInfo) : Nat :=
  10 * r.referenced_in_artifacts.length + tool_tier_term r + org_bonus r + keyword_bonus r

/-- The bucket assignment of lines 534-540. -/
def categoryOf (s : Nat) : String :=
  if 80 ≤ s then "high_priority" else if 40 ≤ s then "medium_priority" else "low_priority"

/-- Record a computed score and category on a record (lines 542-543). -/
def withScoreFields (r : RepoInfo) : RepoInfo :=
  let s := priority_score r
  { r with priority_score := some s, priority_category := some (categoryOf s) }

/-- The sort key `x['priority_score']` read through the registry (the
bucketed objects are the registry's own records). -/
def scoreIn (reg : List (String × RepoInfo)) (k : String) : Nat :=
  match alookup k reg with
  | some r => r.priority_score.getD 0
  | none => 0

/-- Stable insertion step for a descending sort: `x` stays behind every
strictly greater element and in front of equal ones (which were
encountered later, `x` coming from the front of the unsorted list). -/
def insertDesc (f : String → Nat) (x : String) : List String → List String
  | [] => [x]
  | y :: ys => if f x < f y then y :: insertDesc f x ys else x :: y :: ys

/-- Stable descending sort by key, the behaviour of Python's stable
`list.sort(key=..., reverse=True)` (lines 549-552): any two stable
descending sorts agree, so insertion sort is a faithful model. -/
def sortKeysDesc (f : String → Nat) : List String → List String
  | [] => []
  | x :: xs => insertDesc f x (sortKeysDesc f xs)

/-- The keys whose record landed in category `cat`, in registry
(= encounter) order. -/
def bucketKeys (reg : List (String × RepoInfo)) (cat : String) : List String :=
  (reg.filter (fun kv => kv.2.priority_category == some cat)).map Prod.fst

/-- `prioritize_fork_candidates` (lines 500-552).  The source's loop sets
`priority_score` and `priority_category` on every registry record (each
iteration mutating only its own entry) and appends the entry to the
bucket its score selects; with the dict's unique keys this is the
entry-wise map below, and the appended lists are the score-filtered keys
in iteration order.  Each bucket is then sorted stably by descending
score. -/
def prioritize_fork_candidates (st : AnalysisState) : AnalysisState :=
  let reg := st.repositories_found.map (fun kv => (kv.1, withScoreFields kv.2))
  { st with
    repositories_found := reg,
    fork_high := sortKeysDesc (scoreIn reg) (st.fork_high ++ bucketKeys reg "high_priority"),
    fork_medium := sortKeysDesc (scoreIn reg) (st.fork_medium ++ bucketKeys reg "medium_priority"),
    fork_low := sortKeysDesc (scoreIn reg) (st.fork_low ++ bucketKeys reg "low_priority") }

/-- The per-record enrichment of `enrich_repository_info`
(lines 554-564): `estimated_importance` is the reference count and
`fork_recommended` is `priority_score >= 40` (score defaulting to 0 when
never computed). -/
def enrichRepo (r : RepoInfo) : RepoInfo :=
  { r with estimated_importance := some r.referenced_in_artifacts.length,
           fork_recommended := some (decide (40 ≤ r.priority_score.getD 0)) }

/-- `enrich_repository_info` (lines 554-564). -/
def enrich_repository_info (st : AnalysisState) : AnalysisState :=
  { st with repositories_found :=
      st.repositories_found.map (fun kv => (kv.1, enrichRepo kv.2)) }

/-- `post_process_analysis` (lines 475-498): the set-to-list conversions
are identities in this model (sets are already deduplicated lists), then
the scorer runs, then the enrichment. -/
def post_process_analysis (st : AnalysisState) : AnalysisState :=
  enrich_repository_info (prioritize_fork_candidates st)

/-- `analyze_all_packs` (lines 214-248) over a directory modelled as an
association list of present bundle files: collect the expected bundles
that are present, return early (before any post-processing) when none
is, otherwise analyze each and post-process.  (Report emission is I/O
and is not modelled.) -/
def analyze_all_packs (dir : List (String × BundleInput)) (st : AnalysisState) : AnalysisState :=
  let pack_files := expected_pack_names.filterMap (fun n => alookup n dir)
  if pack_files.isEmpty then st
  else post_process_analysis (runPacks pack_files st)

/-! ## Association-list and unique-append lemmas -/

theorem alookup_append_some {α : Type} {k : String} {l1 : List (String × α)}
    {v : α} (l2 : List (String × α)) (h : alookup k l1 = some v) :
    alookup k (l1 ++ l2) = some v := by
  induction l1 with
  | nil => exact absurd h (by simp [alookup])
  | cons kv rest ih =>
    by_cases hk : kv.1 = k
    · simpa [alookup, hk] using h
    · simp only [alookup, hk, if_false, List.cons_append] at h ⊢
      exact ih h

theorem alookup_append_none {α : Type} {k : String} {l1 : List (String × α)}
    (l2 : List (String × α)) (h : alookup k l1 = none) :
    alookup k (l1 ++ l2) = alookup k l2 := by
  induction l1 with
  | nil => simp
  | cons kv rest ih =>
    by_cases hk : kv.1 = k
    · simp [alookup, hk] at h
    · simp only [alookup, hk, if_false] at h
      simp only [List.cons_append, alookup, hk, if_false]
      exact ih h

theorem alookup_aupdate_self {α : Type} (k : String) (f : α → α) (l : List (String × α)) :
    alookup k (aupdate k f l) = (alookup k l).map f := by
  induction l with
  | nil => simp [alookup, aupdate]
  | cons kv rest ih =>
    by_cases hk : kv.1 = k
    · simp [alookup, aupdate, hk]
    · simp [alookup, aupdate, hk, ih]

theorem alookup_aupdate_ne {α : Type} {k kx : String} (h : ¬ kx = k) (f : α → α)
    (l : List (String × α)) : alookup k (aupdate kx f l) = alookup k l := by
  induction l with
  | nil => simp [alookup, aupdate]
  | cons kv rest ih =>
    by_cases hk : kv.1 = kx
    · have : ¬ kv.1 = k := by simp [hk, h]
      simp [alookup, aupdate, hk, this, h]
    · simp [alookup, aupdate, hk, ih]

theorem alookup_aensure_self {α : Type} (k : String) (v : α) (l : List (String × α)) :
    alookup k (aensure k v l) = some ((alookup k l).getD v) := by
  unfold aensure
  cases h : alookup k l with
  | some w => simp [h]
  | none =>
    simp only [h, Option.isSome_none, Bool.false_eq_true, if_false, Option.getD_none]
    rw [alookup_append_none _ h]
    simp [alookup]

theorem alookup_aensure_ne {α : Type} {k kx : String} (h : ¬ kx = k) (v : α)
    (l : List (String × α)) : alookup k (aensure kx v l) = alookup k l := by
  unfold aensure
  split
  · rfl
  · cases hk : alookup k l with
    | some w => exact alookup_append_some _ hk
    | none => rw [alookup_append_none _ hk]; simp [alookup, h]

theorem alookup_map {α β : Type} (k : String) (f : α → β) (l : List (String × α)) :
    alookup k (l.map (fun kv => (kv.1, f kv.2))) = (alookup k l).map f := by
  induction l with
  | nil => simp [alookup]
  | cons kv rest ih =>
    by_cases hk : kv.1 = k
    · simp [alookup, hk]
    · simp [alookup, hk, ih]

theorem alookup_mem {α : Type} {k : String} {l : List (String × α)} {v : α}
    (h : alookup k l = some v) : (k, v) ∈ l := by
  induction l with
  | nil => simp [alookup] at h
  | cons kv rest ih =>
    by_cases hk : kv.1 = k
    · simp only [alookup, hk, if_true] at h
      injection h with hv
      subst hv
      cases kv with
      | mk a b =>
        simp only at hk
        subst hk
        exact List.mem_cons_self _ _
    · simp only [alookup, hk, if_false] at h
      exact List.mem_cons_of_mem _ (ih h)

theorem addUnique_append_tail (a : String) (l : List String) :
    ∃ t, addUnique a l = l ++ t := by
  unfold addUnique
  by_cases h : a ∈ l
  · exact ⟨[], by simp [h]⟩
  · exact ⟨[a], by simp [h]⟩

theorem mem_addUnique_self (a : String) (l : List String) : a ∈ addUnique a l := by
  unfold addUnique
  by_cases h : a ∈ l <;> simp [h]

theorem mem_addUnique (x a : String) (l : List String) (h : x ∈ l) : x ∈ addUnique a l := by
  unfold addUnique
  by_cases ha : a ∈ l <;> simp [ha, h]

theorem nodup_addUnique (a : String) (l : List String) (h : l.Nodup) :
    (addUnique a l).Nodup := by
  unfold addUnique
  by_cases ha : a ∈ l
  · simpa [ha]
  · simp only [ha, if_false]
    simp [List.nodup_append, h, ha]

theorem addUnique_of_mem {a : String} {l : List String} (h : a ∈ l) : addUnique a l = l := by
  simp [addUnique, h]

/-! ## C7: parse failure falls back to text-only processing -/

/-- C7: when the structured parse of a configuration file fails, the
document is still processed — its identity is the file's stem and the
three text passes run on the raw text under that identity, while the
nested query pass is skipped. -/
theorem c7_parse_failure_fallback (d : DocInput) (pack : String) (st : AnalysisState)
    (h : d.parsed = none) :
    analyze_artifact_file d pack st =
      find_download_urls d.content d.stem pack
        (find_known_tools d.content d.stem pack
          (find_github_repositories d.content d.stem pack st)) := by
  simp [analyze_artifact_file, h]

/-- A malformed document used to witness C7. -/
def c7_doc : DocInput :=
  { stem := "broken", content := "see github.com/acme/tool1".toList, parsed := none }

theorem c7_witness :
    analyze_artifact_file c7_doc "artifact_pack.zip" initial_analysis_state =
      find_download_urls c7_doc.content c7_doc.stem "artifact_pack.zip"
        (find_known_tools c7_doc.content c7_doc.stem "artifact_pack.zip"
          (find_github_repositories c7_doc.content c7_doc.stem "artifact_pack.zip"
            initial_analysis_state)) :=
  c7_parse_failure_fallback c7_doc "artifact_pack.zip" initial_analysis_state rfl

/-! ## C2: the tool-tier bonus branch of the scorer is dead -/

/-- The per-record score §4.5 of the design describes, stated from the
design's words for comparison with the source's scorer: the tier bonus
applies whenever a tool association exists. -/
def spec_priority_score (r : RepoInfo) : Nat :=
  10 * r.referenced_in_artifacts.length +
    (if r.tool_name.isSome then tier_bonus r.priority else 0) +
    org_bonus r + keyword_bonus r

/-- A tool-derived record with a critical tier, one referencing document,
and no organization or keyword bonus. -/
def c2_record : RepoInfo :=
  { organization := "NoListOrg", repository_name := "toolrepo",
    repository_url := "https://github.com/NoListOrg/toolrepo",
    referenced_in_artifacts := ["doc-a"], referenced_in_packs := ["artifact_pack.zip"],
    full_urls_found := [], priority := "critical", language := "rust", stars := 0,
    license := "unknown", tool_name := some "hayabusa", priority_score := none,
    priority_category := none, estimated_importance := none, fork_recommended := none }

/-- C2 counterexample: on a tool-derived record with tier critical the
scorer yields 10, not the 10 + 100 the claim's tier bonus demands — the
`hasattr` guard of line 513 never holds for a dict-shaped record. -/
theorem c2_counterexample :
    priority_score c2_record = 10 ∧ spec_priority_score c2_record = 110 ∧
      priority_score c2_record ≠ spec_priority_score c2_record := by
  decide

/-- C2 amended: the tier-bonus branch never fires — every record's score
is 10 per referencing document plus the organization and keyword bonuses,
with no tier contribution regardless of any tool association. -/
theorem c2_amended_no_tier_bonus (r : RepoInfo) :
    priority_score r = 10 * r.referenced_in_artifacts.length + org_bonus r + keyword_bonus r := by
  simp [priority_score, tool_tier_term, hasattr_tool_name]

/-! ## C8: repository-name sanitization and key identity -/

/-- A piece of trailing decoration a captured repository name may carry:
a query string, a fragment, or trailing punctuation. -/
def IsTrailingDeco (d : List Char) : Prop :=
  (∃ t, d = '?' :: t) ∨ (∃ t, d = '#' :: t) ∨ (∀ c ∈ d, punctSet c = true)

theorem takeUntilCh_append {x : Char} {r : List Char} (s : List Char) (h : x ∉ r) :
    takeUntilCh x (r ++ s) = r ++ takeUntilCh x s := by
  induction r with
  | nil => simp
  | cons c cs ih =>
    have hc : ¬ c = x := fun hcx => h (hcx ▸ List.mem_cons_self c cs)
    have hcs : x ∉ cs := fun hx => h (List.mem_cons_of_mem _ hx)
    simp only [List.cons_append, takeUntilCh, List.takeWhile_cons]
    simp only [takeUntilCh] at ih
    simp [hc, ih hcs]

theorem takeUntilCh_all {x : Char} {r : List Char} (h : x ∉ r) : takeUntilCh x r = r := by
  have := takeUntilCh_append (x := x) (r := r) [] h
  simpa [takeUntilCh] using this

theorem dropWhile_append_all {p : Char → Bool} {a : List Char} (b : List Char)
    (h : ∀ c ∈ a, p c = true) : (a ++ b).dropWhile p = b.dropWhile p := by
  induction a with
  | nil => simp
  | cons c cs ih =>
    have hc : p c = true := h c (List.mem_cons_self c cs)
    simp only [List.cons_append, List.dropWhile_cons, hc, if_true]
    exact ih (fun x hx => h x (List.mem_cons_of_mem _ hx))

theorem rstripPunct_append_punct {r d : List Char} (hr : rstripPunct r = r)
    (hd : ∀ c ∈ d, punctSet c = true) : rstripPunct (r ++ d) = r := by
  unfold rstripPunct at hr ⊢
  rw [List.reverse_append]
  rw [dropWhile_append_all r.reverse (by intro c hc; exact hd c (by simpa using hc))]
  exact hr

theorem c8_core {r d : List Char} (h1 : '?' ∉ r) (h2 : '#' ∉ r)
    (h3 : rstripPunct r = r) (hd : IsTrailingDeco d) :
    cleanupRepo (r ++ d).asString = r.asString := by
  unfold cleanupRepo
  have hback : ((r ++ d).asString).toList = r ++ d := by
    simp [List.asString, String.toList]
  rw [hback]
  rcases hd with ⟨t, rfl⟩ | ⟨t, rfl⟩ | hpunct
  · rw [takeUntilCh_append _ h1]
    have : takeUntilCh '?' ('?' :: t) = [] := by simp [takeUntilCh, List.takeWhile_cons]
    rw [this, List.append_nil, takeUntilCh_all h2, h3]
  · rw [takeUntilCh_append _ h1]
    have hsplit : takeUntilCh '?' ('#' :: t) = '#' :: takeUntilCh '?' t := by
      simp [takeUntilCh, List.takeWhile_cons]
    rw [hsplit, takeUntilCh_append _ h2]
    have : takeUntilCh '#' ('#' :: takeUntilCh '?' t) = [] := by
      simp [takeUntilCh, List.takeWhile_cons]
    rw [this, List.append_nil, h3]
  · have hq : '?' ∉ d := by
      intro hin
      have := hpunct _ hin
      simp [punctSet] at this
    have hh : '#' ∉ d := by
      intro hin
      have := hpunct _ hin
      simp [punctSet] at this
    rw [takeUntilCh_append _ h1, takeUntilCh_all hq, takeUntilCh_append _ h2,
      takeUntilCh_all hh, rstripPunct_append_punct h3 hpunct]

/-- C8: the second capture group becomes the repository name after
stripping a trailing query string, fragment and punctuation, so two raw
names that differ only in such trailing decoration yield the same
registry identity key. -/
theorem c8_trailing_decoration (org : String) (r d1 d2 : List Char)
    (h1 : '?' ∉ r) (h2 : '#' ∉ r) (h3 : rstripPunct r = r)
    (hd1 : IsTrailingDeco d1) (hd2 : IsTrailingDeco d2) :
    cleanupRepo (r ++ d1).asString = r.asString ∧
      repoKeyOf org (r ++ d1).asString = repoKeyOf org (r ++ d2).asString := by
  constructor
  · exact c8_core h1 h2 h3 hd1
  · unfold repoKeyOf
    rw [c8_core h1 h2 h3 hd1, c8_core h1 h2 h3 hd2]

theorem c8_witness :
    rstripPunct ("sigma".toList) = "sigma".toList ∧
      (cleanupRepo ("sigma".toList ++ "?tab=readme".toList).asString = ("sigma".toList).asString ∧
        repoKeyOf "SigmaHQ" ("sigma".toList ++ "?tab=readme".toList).asString =
          repoKeyOf "SigmaHQ" ("sigma".toList ++ ").".toList).asString) :=
  ⟨by decide,
   c8_trailing_decoration "SigmaHQ" ("sigma".toList) ("?tab=readme".toList) (").".toList)
     (by decide) (by decide) (by decide)
     (Or.inl ⟨"tab=readme".toList, by decide⟩)
     (Or.inr (Or.inr (by decide)))⟩

/-! ## C9: failure isolation across bundles -/

theorem pack_fail_id (b : BundleInput) (st : AnalysisState) (h : b.files = none) :
    analyze_artifact_pack b st = st := by
  simp [analyze_artifact_pack, h]

/-- C9: a missing bundle is skipped while the other expected bundle is
still processed, and a bundle whose extraction fails leaves the analysis
state exactly as it was, the remaining bundles being processed as if the
failed one were absent. -/
theorem c9_failure_isolation :
    (∀ (b : BundleInput) (st : AnalysisState), b.files = none →
      analyze_artifact_pack b st = st) ∧
    (∀ (l1 l2 : List BundleInput) (bad : BundleInput) (st : AnalysisState),
      bad.files = none → runPacks (l1 ++ bad :: l2) st = runPacks (l1 ++ l2) st) ∧
    (∀ (dir : List (String × BundleInput)) (st : AnalysisState) (b2 : BundleInput),
      alookup "artifact_pack.zip" dir = none →
      alookup "artifact_pack_v2.zip" dir = some b2 →
      analyze_all_packs dir st = post_process_analysis (analyze_artifact_pack b2 st)) := by
  refine ⟨pack_fail_id, ?_, ?_⟩
  · intro l1 l2 bad st hbad
    unfold runPacks
    rw [List.foldl_append, List.foldl_append, List.foldl_cons, pack_fail_id bad _ hbad]
  · intro dir st b2 h1 h2
    simp [analyze_all_packs, expected_pack_names, h1, h2, runPacks]

/-- An extraction-failed bundle and a successfully extracted one. -/
def c9_bad_bundle : BundleInput := { name := "artifact_pack.zip", size := 7, files := none }

/-- A successfully extracted bundle with no artifact files. -/
def c9_good_bundle : BundleInput := { name := "artifact_pack_v2.zip", size := 9, files := some [] }

theorem c9_witness :
    (analyze_artifact_pack c9_bad_bundle initial_analysis_state = initial_analysis_state) ∧
    (runPacks ([c9_good_bundle] ++ c9_bad_bundle :: []) initial_analysis_state =
      runPacks ([c9_good_bundle] ++ []) initial_analysis_state) ∧
    (analyze_all_packs [("artifact_pack_v2.zip", c9_good_bundle)] initial_analysis_state =
      post_process_analysis (analyze_artifact_pack c9_good_bundle initial_analysis_state)) :=
  ⟨c9_failure_isolation.1 c9_bad_bundle initial_analysis_state rfl,
   c9_failure_isolation.2.1 [c9_good_bundle] [] c9_bad_bundle initial_analysis_state rfl,
   c9_failure_isolation.2.2 [("artifact_pack_v2.zip", c9_good_bundle)]
     initial_analysis_state c9_good_bundle (by decide) (by decide)⟩

/-! ## C1: the SigmaHQ/sigma scenario, run end to end -/

/-- The scenario document: raw text holding the SigmaHQ/sigma deep link
and the literal word `sigma`; the structured parse plays no role. -/
def c1_doc : DocInput :=
  { stem := "doc1",
    content := "https://github.com/SigmaHQ/sigma/blob/master/rules/x.yml sigma".toList,
    parsed := none }

/-- A single input bundle containing only the scenario document. -/
def c1_dir : List (String × BundleInput) :=
  [("artifact_pack.zip", { name := "artifact_pack.zip", size := 100, files := some [c1_doc] })]

/-- The full run of the scenario bundle. -/
def c1_state : AnalysisState := analyze_all_packs c1_dir initial_analysis_state

/-- C1 counterexample: the run does produce exactly one record keyed
SigmaHQ/sigma, but its priority score is 30 — not at least 110 — the
high-priority bucket stays empty, and the record carries no tool
association (the URL pass created it first, and the known-tool update
path never sets `tool_name`). -/
theorem c1_counterexample :
    c1_state.repositories_found.map Prod.fst = ["SigmaHQ/sigma"] ∧
    (alookup "SigmaHQ/sigma" c1_state.repositories_found).map
        (fun r => (r.priority_score, r.tool_name)) = some (some 30, none) ∧
    ¬ (110 ≤ 30) ∧ c1_state.fork_high = [] := by
  decide

/-- C1 amended: the scenario run ends with exactly one RepositoryRecord
keyed SigmaHQ/sigma carrying tier critical; a `sigma` ToolRecord exists,
but the repository record itself carries no tool-name association; its
priority score is 30 (10 for the one referencing document plus the 20
second-allowlist organization bonus — the tool-tier branch never fires),
and the record is placed in the low-priority bucket. -/
theorem c1_scenario_actual :
    c1_state.repositories_found.map Prod.fst = ["SigmaHQ/sigma"] ∧
    (alookup "SigmaHQ/sigma" c1_state.repositories_found).map
        (fun r => (r.priority, r.tool_name, r.priority_score, r.priority_category)) =
      some ("critical", none, some 30, some "low_priority") ∧
    (alookup "sigma" c1_state.tools_found).isSome = true ∧
    c1_state.fork_high = [] ∧ c1_state.fork_medium = [] ∧
    c1_state.fork_low = ["SigmaHQ/sigma"] := by
  decide

/-! ## C3: the URL pass never touches an existing record's tier -/

/-- The fields the URL pass may never change, and the append-only
evolution of the three reference lists. -/
def refsExtend (r rp : RepoInfo) : Prop :=
  rp.priority = r.priority ∧ rp.language = r.language ∧ rp.tool_name = r.tool_name ∧
  rp.organization = r.organization ∧ rp.repository_name = r.repository_name ∧
  (∃ t, rp.referenced_in_artifacts = r.referenced_in_artifacts ++ t) ∧
  (∃ t, rp.referenced_in_packs = r.referenced_in_packs ++ t) ∧
  (∃ t, rp.full_urls_found = r.full_urls_found ++ t)

theorem refsExtend_rfl (r : RepoInfo) : refsExtend r r :=
  ⟨rfl, rfl, rfl, rfl, rfl, ⟨[], by simp⟩, ⟨[], by simp⟩, ⟨[], by simp⟩⟩

theorem refsExtend_trans {r q p : RepoInfo} (h1 : refsExtend r q) (h2 : refsExtend q p) :
    refsExtend r p := by
  obtain ⟨a1, a2, a3, a4, a5, ⟨t1, e1⟩, ⟨t2, e2⟩, ⟨t3, e3⟩⟩ := h1
  obtain ⟨b1, b2, b3, b4, b5, ⟨u1, f1⟩, ⟨u2, f2⟩, ⟨u3, f3⟩⟩ := h2
  refine ⟨b1.trans a1, b2.trans a2, b3.trans a3, b4.trans a4, b5.trans a5,
    ⟨t1 ++ u1, ?_⟩, ⟨t2 ++ u2, ?_⟩, ⟨t3 ++ u3, ?_⟩⟩
  · rw [f1, e1, List.append_assoc]
  · rw [f2, e2, List.append_assoc]
  · rw [f3, e3, List.append_assoc]

theorem repoRefUpdate_extends (name pack whole : String) (r : RepoInfo) :
    refsExtend r (repoRefUpdate name pack whole r) := by
  obtain ⟨t1, e1⟩ := addUnique_append_tail name r.referenced_in_artifacts
  obtain ⟨t2, e2⟩ := addUnique_append_tail pack r.referenced_in_packs
  obtain ⟨t3, e3⟩ := addUnique_append_tail whole r.full_urls_found
  exact ⟨rfl, rfl, rfl, rfl, rfl, ⟨t1, e1⟩, ⟨t2, e2⟩, ⟨t3, e3⟩⟩

theorem processRepoHit_preserves (org repoRaw whole name pack : String)
    (st : AnalysisState) (k : String) (r : RepoInfo)
    (h : alookup k st.repositories_found = some r) :
    ∃ rp, alookup k (processRepoHit org repoRaw whole name pack st).repositories_found =
        some rp ∧ refsExtend r rp := by
  unfold processRepoHit
  by_cases hk : org ++ "/" ++ cleanupRepo repoRaw = k
  · subst hk
    have hens : aensure (org ++ "/" ++ cleanupRepo repoRaw)
        (freshRepo org (cleanupRepo repoRaw)) st.repositories_found = st.repositories_found := by
      unfold aensure
      simp [h]
    simp only [hens]
    refine ⟨repoRefUpdate name pack whole r, ?_, repoRefUpdate_extends name pack whole r⟩
    rw [alookup_aupdate_self, h]
    rfl
  · refine ⟨r, ?_, refsExtend_rfl r⟩
    simp only
    rw [alookup_aupdate_ne hk, alookup_aensure_ne hk, h]

theorem foldl_repoHits_preserves (hits : List (String × String × String))
    (name pack : String) (st : AnalysisState) (k : String) (r : RepoInfo)
    (h : alookup k st.repositories_found = some r) :
    ∃ rp, alookup k
        ((hits.foldl (fun s hh => processRepoHit hh.1 hh.2.1 hh.2.2 name pack s)
          st).repositories_found) = some rp ∧ refsExtend r rp := by
  induction hits generalizing st r with
  | nil => exact ⟨r, h, refsExtend_rfl r⟩
  | cons hh rest ih =>
    obtain ⟨rq, hq, hext⟩ := processRepoHit_preserves hh.1 hh.2.1 hh.2.2 name pack st k r h
    obtain ⟨rp, hp, hext2⟩ := ih _ _ hq
    exact ⟨rp, hp, refsExtend_trans hext hext2⟩

/-- C3: for every repository record already present in the registry —
in particular one whose tier was set by a known-tool sighting — a later
run of the repository-URL pass leaves the tier (and language and tool
association) unchanged and only appends to the record's three reference
lists. -/
theorem c3_url_pass_preserves_tier (content : List Char) (name pack : String)
    (st : AnalysisState) (k : String) (r : RepoInfo)
    (h : alookup k st.repositories_found = some r) :
    ∃ rp, alookup k (find_github_repositories content name pack st).repositories_found =
        some rp ∧
      rp.priority = r.priority ∧ rp.language = r.language ∧ rp.tool_name = r.tool_name ∧
      (∃ t, rp.referenced_in_artifacts = r.referenced_in_artifacts ++ t) ∧
      (∃ t, rp.referenced_in_packs = r.referenced_in_packs ++ t) ∧
      (∃ t, rp.full_urls_found = r.full_urls_found ++ t) := by
  obtain ⟨rp, hp, he⟩ :=
    foldl_repoHits_preserves (githubMatches content) name pack st k r h
  exact ⟨rp, hp, he.1, he.2.1, he.2.2.1, he.2.2.2.2.2.1, he.2.2.2.2.2.2.1, he.2.2.2.2.2.2.2⟩

/-- The record a known-tool sighting of hayabusa leaves in the registry:
tier critical, tool association present. -/
def c3_record : RepoInfo :=
  { organization := "Yamato-Security", repository_name := "hayabusa",
    repository_url := "https://github.com/Yamato-Security/hayabusa",
    referenced_in_artifacts := ["d0"], referenced_in_packs := ["artifact_pack.zip"],
    full_urls_found := [], priority := "critical", language := "rust", stars := 0,
    license := "unknown", tool_name := some "hayabusa", priority_score := none,
    priority_category := none, estimated_importance := none, fork_recommended := none }

/-- A registry holding the tool-derived record, for the C3 witness. -/
def c3_state : AnalysisState :=
  { initial_analysis_state with
    repositories_found := [("Yamato-Security/hayabusa", c3_record)] }

theorem c3_witness :
    alookup "Yamato-Security/hayabusa" c3_state.repositories_found = some c3_record ∧
    (∃ rp, alookup "Yamato-Security/hayabusa"
        ((find_github_repositories
          "see github.com/Yamato-Security/hayabusa again".toList "d1" "artifact_pack_v2.zip"
          c3_state).repositories_found) = some rp ∧
      rp.priority = c3_record.priority ∧ rp.language = c3_record.language ∧
      rp.tool_name = c3_record.tool_name ∧
      (∃ t, rp.referenced_in_artifacts = c3_record.referenced_in_artifacts ++ t) ∧
      (∃ t, rp.referenced_in_packs = c3_record.referenced_in_packs ++ t) ∧
      (∃ t, rp.full_urls_found = c3_record.full_urls_found ++ t)) :=
  ⟨by decide,
   c3_url_pass_preserves_tier
     "see github.com/Yamato-Security/hayabusa again".toList "d1" "artifact_pack_v2.zip"
     c3_state "Yamato-Security/hayabusa" c3_record (by decide)⟩

/-! ## C5: referencing-document lists never acquire duplicates -/

/-- Invariant: every record of the three registries has a duplicate-free
referencing-document list. -/
def StNodup (st : AnalysisState) : Prop :=
  (∀ kv ∈ st.repositories_found, (kv.2 : RepoInfo).referenced_in_artifacts.Nodup) ∧
  (∀ kv ∈ st.tools_found, (kv.2 : ToolInfo).referenced_in_artifacts.Nodup) ∧
  (∀ kv ∈ st.dependencies_found, (kv.2 : DepInfo).referenced_in_artifacts.Nodup)

theorem inv_foldl {σ β : Type} (P : σ → Prop) (f : σ → β → σ) (l : List β) (s : σ)
    (hf : ∀ s b, P s → P (f s b)) (h : P s) : P (l.foldl f s) := by
  induction l generalizing s with
  | nil => exact h
  | cons b rest ih => exact ih _ (hf s b h)

theorem pAll_aupdate {α : Type} (P : α → Prop) {l : List (String × α)} (k : String)
    (f : α → α) (hf : ∀ v, P v → P (f v)) (h : ∀ kv ∈ l, P kv.2) :
    ∀ kv ∈ aupdate k f l, P kv.2 := by
  induction l with
  | nil => simp [aupdate]
  | cons c rest ih =>
    intro kv hkv
    by_cases hc : c.1 = k
    · simp only [aupdate, hc, if_true] at hkv
      rcases List.mem_cons.1 hkv with h1 | h2
      · cases h1
        exact hf _ (h c (List.mem_cons_self _ _))
      · exact h kv (List.mem_cons_of_mem _ h2)
    · simp only [aupdate, hc, if_false] at hkv
      rcases List.mem_cons.1 hkv with h1 | h2
      · cases h1
        exact h c (List.mem_cons_self _ _)
      · exact ih (fun x hx => h x (List.mem_cons_of_mem _ hx)) kv h2

theorem pAll_aensure {α : Type} (P : α → Prop) {l : List (String × α)} (k : String)
    (v : α) (hv : P v) (h : ∀ kv ∈ l, P kv.2) : ∀ kv ∈ aensure k v l, P kv.2 := by
  unfold aensure
  split
  · exact h
  · intro kv hkv
    rcases List.mem_append.1 hkv with h1 | h2
    · exact h kv h1
    · simp only [List.mem_singleton] at h2
      cases h2
      exact hv

theorem stNodup_processRepoHit (org repoRaw whole name pack : String) (st : AnalysisState)
    (h : StNodup st) : StNodup (processRepoHit org repoRaw whole name pack st) := by
  obtain ⟨hr, ht, hd⟩ := h
  refine ⟨?_, ht, hd⟩
  exact pAll_aupdate (fun v : RepoInfo => v.referenced_in_artifacts.Nodup) _ _
    (fun v hv => nodup_addUnique name _ hv)
    (pAll_aensure (fun v : RepoInfo => v.referenced_in_artifacts.Nodup) _ _
      List.nodup_nil hr)

theorem stNodup_find_github_repositories (content : List Char) (name pack : String)
    (st : AnalysisState) (h : StNodup st) :
    StNodup (find_github_repositories content name pack st) :=
  inv_foldl StNodup _ (githubMatches content) st
    (fun s hh hs => stNodup_processRepoHit hh.1 hh.2.1 hh.2.2 name pack s hs) h

theorem toolsNodup_recordToolHit (toolKey : String) (info : KnownTool)
    (patStr name pack : String) (ts : List (String × ToolInfo))
    (h : ∀ kv ∈ ts, (kv.2 : ToolInfo).referenced_in_artifacts.Nodup) :
    ∀ kv ∈ recordToolHit toolKey info patStr name pack ts,
      (kv.2 : ToolInfo).referenced_in_artifacts.Nodup :=
  pAll_aupdate (fun v : ToolInfo => v.referenced_in_artifacts.Nodup) _ _
    (fun _ hv => nodup_addUnique name _ hv)
    (pAll_aensure (fun v : ToolInfo => v.referenced_in_artifacts.Nodup) _ _
      List.nodup_nil h)

theorem stNodup_toolRepoUpdate (toolKey : String) (info : KnownTool) (name pack : String)
    (st : AnalysisState) (h : StNodup st) :
    StNodup (toolRepoUpdate toolKey info name pack st) := by
  obtain ⟨hr, ht, hd⟩ := h
  unfold toolRepoUpdate
  split
  · cases hurl : repoFromUrl info.repo_url with
    | some og =>
      simp only [hurl]
      refine ⟨?_, ht, hd⟩
      exact pAll_aupdate (fun v : RepoInfo => v.referenced_in_artifacts.Nodup) _ _
        (fun v hv => nodup_addUnique name _ hv)
        (pAll_aensure (fun v : RepoInfo => v.referenced_in_artifacts.Nodup) _ _
          List.nodup_nil hr)
    | none => simp only [hurl]; exact ⟨hr, ht, hd⟩
  · exact ⟨hr, ht, hd⟩

theorem stNodup_find_known_tools (content : List Char) (name pack : String)
    (st : AnalysisState) (h : StNodup st) :
    StNodup (find_known_tools content name pack st) := by
  refine inv_foldl StNodup _ known_tools st (fun s tk hs => ?_) h
  refine inv_foldl StNodup _ tk.2.patterns s (fun s2 p hs2 => ?_) hs
  by_cases hm : patMatches p.kind content
  · simp only [hm, if_true]
    refine stNodup_toolRepoUpdate tk.1 tk.2 name pack _ ?_
    obtain ⟨hr2, ht2, hd2⟩ := hs2
    exact ⟨hr2, toolsNodup_recordToolHit tk.1 tk.2 p.src name pack _ ht2, hd2⟩
  · simpa [hm] using hs2

theorem stNodup_processDownloadHit (url name pack : String) (st : AnalysisState)
    (h : StNodup st) : StNodup (processDownloadHit url name pack st) := by
  obtain ⟨hr, ht, hd⟩ := h
  refine ⟨hr, ht, ?_⟩
  exact pAll_aupdate (fun v : DepInfo => v.referenced_in_artifacts.Nodup) _ _
    (fun v hv => nodup_addUnique name _ hv)
    (pAll_aensure (fun v : DepInfo => v.referenced_in_artifacts.Nodup) _ _
      List.nodup_nil hd)

theorem stNodup_find_download_urls (content : List Char) (name pack : String)
    (st : AnalysisState) (h : StNodup st) :
    StNodup (find_download_urls content name pack st) :=
  inv_foldl StNodup _ (downloadMatches content) st
    (fun s u hs => stNodup_processDownloadHit u name pack s hs) h

theorem toolsNodup_processVqlToken (tok name pack : String) (ts : List (String × ToolInfo))
    (h : ∀ kv ∈ ts, (kv.2 : ToolInfo).referenced_in_artifacts.Nodup) :
    ∀ kv ∈ processVqlToken tok name pack ts,
      (kv.2 : ToolInfo).referenced_in_artifacts.Nodup := by
  refine inv_foldl (fun l => ∀ kv ∈ l, (kv.2 : ToolInfo).referenced_in_artifacts.Nodup)
    _ known_tools ts (fun l tk hl => ?_) h
  by_cases hm : toolHitsTok tok tk.2
  · simpa [hm] using toolsNodup_recordToolHit tk.1 tk.2 tok name pack l hl
  · simpa [hm] using hl

theorem stNodup_analyze_vql_query (q : List Char) (name pack : String)
    (st : AnalysisState) (h : StNodup st) : StNodup (analyze_vql_query q name pack st) := by
  obtain ⟨hr, ht, hd⟩ := h
  refine ⟨hr, ?_, hd⟩
  exact inv_foldl (fun l => ∀ kv ∈ l, (kv.2 : ToolInfo).referenced_in_artifacts.Nodup)
    _ (vqlTokens q) st.tools_found
    (fun l tok hl => toolsNodup_processVqlToken tok name pack l hl) ht

theorem stNodup_analyze_artifact_file (d : DocInput) (pack : String) (st : AnalysisState)
    (h : StNodup st) : StNodup (analyze_artifact_file d pack st) := by
  unfold analyze_artifact_file
  cases hp : d.parsed with
  | none =>
    simp only [hp]
    exact stNodup_find_download_urls _ _ _ _
      (stNodup_find_known_tools _ _ _ _ (stNodup_find_github_repositories _ _ _ _ h))
  | some a =>
    simp only [hp]
    cases hs : a.sources with
    | none =>
      simp only [hs]
      exact stNodup_find_download_urls _ _ _ _
        (stNodup_find_known_tools _ _ _ _ (stNodup_find_github_repositories _ _ _ _ h))
    | some srcs =>
      simp only [hs]
      refine inv_foldl StNodup _ srcs _ (fun s src hsn => ?_)
        (stNodup_find_download_urls _ _ _ _
          (stNodup_find_known_tools _ _ _ _ (stNodup_find_github_repositories _ _ _ _ h)))
      cases hq : src.query with
      | none => simpa [hq] using hsn
      | some q => simpa [hq] using stNodup_analyze_vql_query q _ pack s hsn

theorem stNodup_analyze_artifact_pack (b : BundleInput) (st : AnalysisState)
    (h : StNodup st) : StNodup (analyze_artifact_pack b st) := by
  unfold analyze_artifact_pack
  cases hf : b.files with
  | none => exact h
  | some docs =>
    simp only
    have h1 : StNodup { st with total_artifacts := st.total_artifacts + docs.length } := h
    have h2 := inv_foldl StNodup (fun s d => analyze_artifact_file d b.name s) docs _
      (fun s d hs => stNodup_analyze_artifact_file d b.name s hs) h1
    exact h2

theorem stNodup_runPacks (bs : List BundleInput) (st : AnalysisState) (h : StNodup st) :
    StNodup (runPacks bs st) :=
  inv_foldl StNodup _ bs st (fun s b hs => stNodup_analyze_artifact_pack b s hs) h

theorem pAll_map_snd {α β : Type} (P : β → Prop) (f : α → β) {l : List (String × α)}
    (hf : ∀ kv ∈ l, P (f kv.2)) :
    ∀ kv ∈ l.map (fun kv => (kv.1, f kv.2)), P kv.2 := by
  intro kv hkv
  obtain ⟨c, hc, rfl⟩ := List.mem_map.1 hkv
  exact hf c hc

theorem stNodup_post_process (st : AnalysisState) (h : StNodup st) :
    StNodup (post_process_analysis st) := by
  obtain ⟨hr, ht, hd⟩ := h
  refine ⟨?_, ht, hd⟩
  show ∀ kv ∈ ((st.repositories_found.map (fun kv => (kv.1, withScoreFields kv.2))).map
      (fun kv => (kv.1, enrichRepo kv.2))), (kv.2 : RepoInfo).referenced_in_artifacts.Nodup
  refine pAll_map_snd (fun v : RepoInfo => v.referenced_in_artifacts.Nodup) enrichRepo ?_
  refine pAll_map_snd (fun v : RepoInfo => (enrichRepo v).referenced_in_artifacts.Nodup)
    withScoreFields ?_
  intro kv hkv
  simpa [enrichRepo, withScoreFields] using hr kv hkv

theorem stNodup_analyze_all_packs (dir : List (String × BundleInput)) (st : AnalysisState)
    (h : StNodup st) : StNodup (analyze_all_packs dir st) := by
  simp only [analyze_all_packs]
  split
  · exact h
  · exact stNodup_post_process _ (stNodup_runPacks _ st h)

/-- C5: starting from a duplicate-free state, after processing any list
of bundles (in particular the same bundle twice, and however many
patterns of one family matched inside one document) every record of the
three registries lists each distinct referencing document at most
once — so the reference count used by the scorer counts each distinct
document exactly once. -/
theorem c5_no_duplicate_refs (bs : List BundleInput) (st : AnalysisState) (h : StNodup st) :
    (∀ k r doc, alookup k (runPacks bs st).repositories_found = some r →
      (r : RepoInfo).referenced_in_artifacts.count doc ≤ 1) ∧
    (∀ k t doc, alookup k (runPacks bs st).tools_found = some t →
      (t : ToolInfo).referenced_in_artifacts.count doc ≤ 1) ∧
    (∀ k dp doc, alookup k (runPacks bs st).dependencies_found = some dp →
      (dp : DepInfo).referenced_in_artifacts.count doc ≤ 1) := by
  have hs := stNodup_runPacks bs st h
  refine ⟨fun k r doc hx => ?_, fun k t doc hx => ?_, fun k dp doc hx => ?_⟩
  · exact List.nodup_iff_count_le_one.1 (hs.1 _ (alookup_mem hx)) doc
  · exact List.nodup_iff_count_le_one.1 (hs.2.1 _ (alookup_mem hx)) doc
  · exact List.nodup_iff_count_le_one.1 (hs.2.2 _ (alookup_mem hx)) doc

/-- A document matched by several sigma patterns at once. -/
def c5_doc : DocInput :=
  { stem := "t1", content := "sigma and more sigma rules".toList, parsed := none }

/-- A bundle holding that document, processed twice in the witness. -/
def c5_bundle : BundleInput :=
  { name := "artifact_pack.zip", size := 5, files := some [c5_doc] }

theorem c5_witness :
    StNodup initial_analysis_state ∧
    ((∀ k r doc, alookup k
        (runPacks [c5_bundle, c5_bundle] initial_analysis_state).repositories_found = some r →
        (r : RepoInfo).referenced_in_artifacts.count doc ≤ 1) ∧
     (∀ k t doc, alookup k
        (runPacks [c5_bundle, c5_bundle] initial_analysis_state).tools_found = some t →
        (t : ToolInfo).referenced_in_artifacts.count doc ≤ 1) ∧
     (∀ k dp doc, alookup k
        (runPacks [c5_bundle, c5_bundle] initial_analysis_state).dependencies_found = some dp →
        (dp : DepInfo).referenced_in_artifacts.count doc ≤ 1)) :=
  ⟨⟨by simp [initial_analysis_state], by simp [initial_analysis_state],
     by simp [initial_analysis_state]⟩,
   c5_no_duplicate_refs [c5_bundle, c5_bundle] initial_analysis_state
     ⟨by simp [initial_analysis_state], by simp [initial_analysis_state],
      by simp [initial_analysis_state]⟩⟩

/-! ## Sorting lemmas for the bucket claims (C4, C10) -/

theorem mem_insertDesc (f : String → Nat) (x : String) (l : List String) (y : String) :
    y ∈ insertDesc f x l ↔ y = x ∨ y ∈ l := by
  induction l with
  | nil => simp [insertDesc]
  | cons a as ih =>
    unfold insertDesc
    by_cases hc : f x < f a
    · simp only [hc, if_true, List.mem_cons, ih]
      tauto
    · simp only [hc, if_false, List.mem_cons]

theorem mem_sortKeysDesc (f : String → Nat) (l : List String) (y : String) :
    y ∈ sortKeysDesc f l ↔ y ∈ l := by
  induction l with
  | nil => simp [sortKeysDesc]
  | cons a as ih =>
    unfold sortKeysDesc
    rw [mem_insertDesc, ih, List.mem_cons]

theorem sorted_insertDesc (f : String → Nat) (x : String) (l : List String)
    (h : l.Pairwise (fun a b => f b ≤ f a)) :
    (insertDesc f x l).Pairwise (fun a b => f b ≤ f a) := by
  induction l with
  | nil => simp [insertDesc]
  | cons a as ih =>
    rcases List.pairwise_cons.1 h with ⟨ha, htail⟩
    unfold insertDesc
    by_cases hc : f x < f a
    · simp only [hc, if_true]
      refine List.pairwise_cons.2 ⟨?_, ih htail⟩
      intro b hb
      rcases (mem_insertDesc f x as b).1 hb with rfl | hbas
      · exact Nat.le_of_lt hc
      · exact ha b hbas
    · simp only [hc, if_false]
      refine List.pairwise_cons.2 ⟨?_, h⟩
      intro b hb
      rcases List.mem_cons.1 hb with rfl | hbas
      · omega
      · exact le_trans (ha b hbas) (by omega)

theorem sorted_sortKeysDesc (f : String → Nat) (l : List String) :
    (sortKeysDesc f l).Pairwise (fun a b => f b ≤ f a) := by
  induction l with
  | nil => simp [sortKeysDesc]
  | cons a as ih => exact sorted_insertDesc f a _ ih

theorem filter_insertDesc_ne (f : String → Nat) (x : String) (l : List String) (s : Nat)
    (hx : ¬ f x = s) :
    (insertDesc f x l).filter (fun k => f k == s) = l.filter (fun k => f k == s) := by
  induction l with
  | nil => simp [insertDesc, hx]
  | cons a as ih =>
    unfold insertDesc
    by_cases hc : f x < f a
    · simp only [hc, if_true, List.filter_cons]
      cases haeq : ((f a == s) : Bool) <;> simp [haeq, ih]
    · simp only [hc, if_false, List.filter_cons, hx]
      simp [hx]

theorem filter_insertDesc_eq (f : String → Nat) (x : String) (l : List String) (s : Nat)
    (hx : f x = s) (hsort : l.Pairwise (fun a b => f b ≤ f a)) :
    (insertDesc f x l).filter (fun k => f k == s) = x :: l.filter (fun k => f k == s) := by
  induction l with
  | nil => simp [insertDesc, hx]
  | cons a as ih =>
    rcases List.pairwise_cons.1 hsort with ⟨ha, htail⟩
    unfold insertDesc
    by_cases hc : f x < f a
    · have hane : ¬ (f a = s) := by omega
      simp only [hc, if_true, List.filter_cons, hane]
      simp only [show ((f a == s) : Bool) = false by simpa using hane, if_false]
      exact ih htail
    · simp only [hc, if_false, List.filter_cons]
      simp [hx]

theorem filter_sortKeysDesc (f : String → Nat) (l : List String) (s : Nat) :
    (sortKeysDesc f l).filter (fun k => f k == s) = l.filter (fun k => f k == s) := by
  induction l with
  | nil => rfl
  | cons a as ih =>
    unfold sortKeysDesc
    by_cases hx : f a = s
    · rw [filter_insertDesc_eq f a _ s hx (sorted_sortKeysDesc f as), ih]
      simp [List.filter_cons, hx]
    · rw [filter_insertDesc_ne f a _ s hx, ih]
      simp [List.filter_cons, hx]

/-! ## Registry lemmas for the bucket claims -/

theorem alookup_eq_none_iff {α : Type} (k : String) (l : List (String × α)) :
    alookup k l = none ↔ k ∉ l.map Prod.fst := by
  induction l with
  | nil => simp [alookup]
  | cons a rest ih =>
    by_cases hk : a.1 = k
    · simp [alookup, hk]
    · simp only [alookup, hk, if_false, List.map_cons, List.mem_cons, ih]
      constructor
      · intro h hc
        rcases hc with hc | hc
        · exact hk hc.symm
        · exact h hc
      · intro h
        exact fun hc => h (Or.inr hc)

theorem mem_filterKeys {α : Type} (p : α → Bool) {l : List (String × α)}
    (hnd : (l.map Prod.fst).Nodup) (k : String) :
    k ∈ (l.filter (fun kv => p kv.2)).map Prod.fst ↔
      ∃ v, alookup k l = some v ∧ p v = true := by
  induction l with
  | nil => simp [alookup]
  | cons a rest ih =>
    have hnd2 : a.1 ∉ rest.map Prod.fst ∧ (rest.map Prod.fst).Nodup := by
      rw [List.map_cons, List.nodup_cons] at hnd
      exact hnd
    obtain ⟨hknot, hndr⟩ := hnd2
    by_cases hk : a.1 = k
    · subst hk
      have hnone : alookup a.1 rest = none := (alookup_eq_none_iff _ _).2 hknot
      cases hp : p a.2
      · simp only [List.filter_cons, hp, if_false]
        simp only [alookup, if_true]
        constructor
        · intro hmem
          obtain ⟨kv, hkv, hfst⟩ := List.mem_map.1 hmem
          exact absurd (hfst ▸ List.mem_map_of_mem Prod.fst (List.mem_of_mem_filter hkv))
            hknot
        · rintro ⟨v, hv, hpv⟩
          injection hv with hv
          subst hv
          simp [hp] at hpv
      · simp only [List.filter_cons, hp, if_true]
        simp only [alookup, if_true]
        constructor
        · intro _
          exact ⟨a.2, rfl, hp⟩
        · intro _
          simp
    · simp only [alookup, hk, if_false]
      cases hp : p a.2
      · simp only [List.filter_cons, hp, if_false]
        exact ih hndr
      · simp only [List.filter_cons, hp, if_true, List.map_cons, List.mem_cons]
        rw [ih hndr]
        constructor
        · intro h
          rcases h with h | h
          · exact absurd h.symm hk
          · exact h
        · exact fun h => Or.inr h

theorem keys_map_snd {α β : Type} (f : α → β) (l : List (String × α)) :
    (l.map (fun kv => (kv.1, f kv.2))).map Prod.fst = l.map Prod.fst := by
  induction l with
  | nil => rfl
  | cons a rest ih => simp [ih]

/-! ## Category facts -/

theorem catP_high (s : Nat) : categoryOf s = "high_priority" ↔ 80 ≤ s := by
  unfold categoryOf
  split
  · rename_i h8
    simp [h8]
  · rename_i h8
    split
    · constructor
      · intro hx
        exact absurd hx (by decide)
      · intro hx
        exact absurd hx h8
    · constructor
      · intro hx
        exact absurd hx (by decide)
      · intro hx
        exact absurd hx h8

theorem catP_medium (s : Nat) : categoryOf s = "medium_priority" ↔ (40 ≤ s ∧ s < 80) := by
  unfold categoryOf
  split
  · rename_i h8
    constructor
    · intro hx
      exact absurd hx (by decide)
    · intro hx
      omega
  · rename_i h8
    split
    · rename_i h4
      constructor
      · intro _
        exact ⟨h4, by omega⟩
      · intro _
        rfl
    · rename_i h4
      constructor
      · intro hx
        exact absurd hx (by decide)
      · intro hx
        omega

theorem catP_low (s : Nat) : categoryOf s = "low_priority" ↔ s < 40 := by
  unfold categoryOf
  split
  · rename_i h8
    constructor
    · intro hx
      exact absurd hx (by decide)
    · intro hx
      omega
  · rename_i h8
    split
    · rename_i h4
      constructor
      · intro hx
        exact absurd hx (by decide)
      · intro hx
        omega
    · rename_i h4
      constructor
      · intro _
        omega
      · intro _
        rfl

/-! ## Bucket membership over the scored registry -/

/-- The registry after the scoring loop of `prioritize_fork_candidates`
set the score fields on every record. -/
def scoredReg (st : AnalysisState) : List (String × RepoInfo) :=
  st.repositories_found.map (fun kv => (kv.1, withScoreFields kv.2))

theorem scored_lookup (st : AnalysisState) (k : String) (r : RepoInfo)
    (h : alookup k (scoredReg st) = some r) :
    ∃ r0, alookup k st.repositories_found = some r0 ∧ r = withScoreFields r0 := by
  unfold scoredReg at h
  rw [alookup_map] at h
  cases h0 : alookup k st.repositories_found with
  | none => rw [h0] at h; simp at h
  | some r0 =>
    rw [h0] at h
    simp only [Option.map_some'] at h
    injection h with h
    exact ⟨r0, rfl, h.symm⟩

theorem scoreIn_scored (st : AnalysisState) (k : String) (r0 : RepoInfo)
    (h0 : alookup k st.repositories_found = some r0) :
    scoreIn (scoredReg st) k = priority_score r0 := by
  unfold scoreIn scoredReg
  rw [alookup_map, h0]
  simp [withScoreFields]

theorem mem_scored_bucket (st : AnalysisState)
    (hnd : (st.repositories_found.map Prod.fst).Nodup) (cat : String) (k : String) :
    k ∈ sortKeysDesc (scoreIn (scoredReg st)) (bucketKeys (scoredReg st) cat) ↔
      ∃ r0, alookup k st.repositories_found = some r0 ∧
        categoryOf (priority_score r0) = cat := by
  rw [mem_sortKeysDesc]
  unfold bucketKeys
  have hnd2 : ((scoredReg st).map Prod.fst).Nodup := by
    unfold scoredReg
    rw [keys_map_snd]
    exact hnd
  rw [mem_filterKeys (fun v : RepoInfo => v.priority_category == some cat) hnd2 k]
  constructor
  · rintro ⟨v, hv, hp⟩
    obtain ⟨r0, h0, rfl⟩ := scored_lookup st k v hv
    refine ⟨r0, h0, ?_⟩
    have hcat : (withScoreFields r0).priority_category = some cat := eq_of_beq hp
    simp only [withScoreFields] at hcat
    exact Option.some.inj hcat
  · rintro ⟨r0, h0, hcat⟩
    refine ⟨withScoreFields r0, ?_, ?_⟩
    · unfold scoredReg
      rw [alookup_map, h0]
      rfl
    · show ((withScoreFields r0).priority_category == some cat) = true
      simp [withScoreFields, hcat]

theorem scored_bucket_iff (st : AnalysisState)
    (hnd : (st.repositories_found.map Prod.fst).Nodup) (cat : String) (k : String)
    (r0 : RepoInfo) (h0 : alookup k st.repositories_found = some r0) :
    (k ∈ sortKeysDesc (scoreIn (scoredReg st)) (bucketKeys (scoredReg st) cat) ↔
      categoryOf (priority_score r0) = cat) := by
  rw [mem_scored_bucket st hnd cat k]
  constructor
  · rintro ⟨r1, h1, hcat⟩
    rw [h0] at h1
    injection h1 with h1
    exact h1 ▸ hcat
  · intro hcat
    exact ⟨r0, h0, hcat⟩

/-! ## C4: bucketing is exhaustive, disjoint, descending-sorted and
stable -/

/-- The full bucketing property of the scorer: thresholds, exhaustive and
disjoint membership, buckets confined to registry records, descending
order by score, and stability (for every score value, a bucket lists the
keys of that score in registry-encounter order, `bucketKeys` being that
order). -/
def C4Conclusion (st : AnalysisState) : Prop :=
  (∀ k r, alookup k (prioritize_fork_candidates st).repositories_found = some r →
    ((k ∈ (prioritize_fork_candidates st).fork_high ↔ 80 ≤ r.priority_score.getD 0) ∧
     (k ∈ (prioritize_fork_candidates st).fork_medium ↔
       (40 ≤ r.priority_score.getD 0 ∧ r.priority_score.getD 0 < 80)) ∧
     (k ∈ (prioritize_fork_candidates st).fork_low ↔ r.priority_score.getD 0 < 40))) ∧
  (∀ k r, alookup k (prioritize_fork_candidates st).repositories_found = some r →
    (k ∈ (prioritize_fork_candidates st).fork_high ∧
      k ∉ (prioritize_fork_candidates st).fork_medium ∧
      k ∉ (prioritize_fork_candidates st).fork_low) ∨
    (k ∉ (prioritize_fork_candidates st).fork_high ∧
      k ∈ (prioritize_fork_candidates st).fork_medium ∧
      k ∉ (prioritize_fork_candidates st).fork_low) ∨
    (k ∉ (prioritize_fork_candidates st).fork_high ∧
      k ∉ (prioritize_fork_candidates st).fork_medium ∧
      k ∈ (prioritize_fork_candidates st).fork_low)) ∧
  (∀ k, (k ∈ (prioritize_fork_candidates st).fork_high ∨
      k ∈ (prioritize_fork_candidates st).fork_medium ∨
      k ∈ (prioritize_fork_candidates st).fork_low) →
    (alookup k (prioritize_fork_candidates st).repositories_found).isSome = true) ∧
  ((prioritize_fork_candidates st).fork_high.Pairwise
      (fun a b => scoreIn (prioritize_fork_candidates st).repositories_found b ≤
        scoreIn (prioritize_fork_candidates st).repositories_found a) ∧
   (prioritize_fork_candidates st).fork_medium.Pairwise
      (fun a b => scoreIn (prioritize_fork_candidates st).repositories_found b ≤
        scoreIn (prioritize_fork_candidates st).repositories_found a) ∧
   (prioritize_fork_candidates st).fork_low.Pairwise
      (fun a b => scoreIn (prioritize_fork_candidates st).repositories_found b ≤
        scoreIn (prioritize_fork_candidates st).repositories_found a)) ∧
  (∀ s : Nat,
    ((prioritize_fork_candidates st).fork_high.filter
        (fun k => scoreIn (prioritize_fork_candidates st).repositories_found k == s) =
      (bucketKeys (prioritize_fork_candidates st).repositories_found "high_priority").filter
        (fun k => scoreIn (prioritize_fork_candidates st).repositories_found k == s)) ∧
    ((prioritize_fork_candidates st).fork_medium.filter
        (fun k => scoreIn (prioritize_fork_candidates st).repositories_found k == s) =
      (bucketKeys (prioritize_fork_candidates st).repositories_found "medium_priority").filter
        (fun k => scoreIn (prioritize_fork_candidates st).repositories_found k == s)) ∧
    ((prioritize_fork_candidates st).fork_low.filter
        (fun k => scoreIn (prioritize_fork_candidates st).repositories_found k == s) =
      (bucketKeys (prioritize_fork_candidates st).repositories_found "low_priority").filter
        (fun k => scoreIn (prioritize_fork_candidates st).repositories_found k == s)))

theorem prioritize_repos_eq (st : AnalysisState) :
    (prioritize_fork_candidates st).repositories_found = scoredReg st := rfl

theorem prioritize_high_eq (st : AnalysisState) (hh : st.fork_high = []) :
    (prioritize_fork_candidates st).fork_high =
      sortKeysDesc (scoreIn (scoredReg st)) (bucketKeys (scoredReg st) "high_priority") := by
  show sortKeysDesc (scoreIn (scoredReg st))
      (st.fork_high ++ bucketKeys (scoredReg st) "high_priority") = _
  rw [hh, List.nil_append]

theorem prioritize_medium_eq (st : AnalysisState) (hm : st.fork_medium = []) :
    (prioritize_fork_candidates st).fork_medium =
      sortKeysDesc (scoreIn (scoredReg st)) (bucketKeys (scoredReg st) "medium_priority") := by
  show sortKeysDesc (scoreIn (scoredReg st))
      (st.fork_medium ++ bucketKeys (scoredReg st) "medium_priority") = _
  rw [hm, List.nil_append]

theorem prioritize_low_eq (st : AnalysisState) (hl : st.fork_low = []) :
    (prioritize_fork_candidates st).fork_low =
      sortKeysDesc (scoreIn (scoredReg st)) (bucketKeys (scoredReg st) "low_priority") := by
  show sortKeysDesc (scoreIn (scoredReg st))
      (st.fork_low ++ bucketKeys (scoredReg st) "low_priority") = _
  rw [hl, List.nil_append]

/-- C4: after scoring, every registry record lands in exactly one of the
three buckets by its score thresholds, the buckets only hold registry
records, each bucket is sorted by descending priority score, and the
sort is stable (records of equal score keep their encounter order). -/
theorem c4_bucket_partition (st : AnalysisState)
    (hh : st.fork_high = []) (hm : st.fork_medium = []) (hl : st.fork_low = [])
    (hnd : (st.repositories_found.map Prod.fst).Nodup) :
    C4Conclusion st := by
  unfold C4Conclusion
  rw [prioritize_repos_eq st, prioritize_high_eq st hh, prioritize_medium_eq st hm,
    prioritize_low_eq st hl]
  refine ⟨?_, ?_, ?_, ?_, ?_⟩
  · intro k r h
    obtain ⟨r0, h0, rfl⟩ := scored_lookup st k r h
    have hsc : (withScoreFields r0).priority_score.getD 0 = priority_score r0 := by
      simp [withScoreFields]
    refine ⟨?_, ?_, ?_⟩
    · rw [scored_bucket_iff st hnd _ k r0 h0, catP_high, hsc]
    · rw [scored_bucket_iff st hnd _ k r0 h0, catP_medium, hsc]
    · rw [scored_bucket_iff st hnd _ k r0 h0, catP_low, hsc]
  · intro k r h
    obtain ⟨r0, h0, rfl⟩ := scored_lookup st k r h
    have hhigh := scored_bucket_iff st hnd "high_priority" k r0 h0
    have hmed := scored_bucket_iff st hnd "medium_priority" k r0 h0
    have hlow := scored_bucket_iff st hnd "low_priority" k r0 h0
    by_cases c1 : 80 ≤ priority_score r0
    · refine Or.inl ⟨hhigh.2 ((catP_high _).2 c1), ?_, ?_⟩
      · intro hc
        have := (catP_medium _).1 (hmed.1 hc)
        omega
      · intro hc
        have := (catP_low _).1 (hlow.1 hc)
        omega
    · by_cases c2 : 40 ≤ priority_score r0
      · refine Or.inr (Or.inl ⟨?_, hmed.2 ((catP_medium _).2 ⟨c2, by omega⟩), ?_⟩)
        · intro hc
          have := (catP_high _).1 (hhigh.1 hc)
          omega
        · intro hc
          have := (catP_low _).1 (hlow.1 hc)
          omega
      · refine Or.inr (Or.inr ⟨?_, ?_, hlow.2 ((catP_low _).2 (by omega))⟩)
        · intro hc
          have := (catP_high _).1 (hhigh.1 hc)
          omega
        · intro hc
          have := (catP_medium _).1 (hmed.1 hc)
          omega
  · intro k hk
    have hsome : ∀ cat, k ∈ sortKeysDesc (scoreIn (scoredReg st))
        (bucketKeys (scoredReg st) cat) → (alookup k (scoredReg st)).isSome = true := by
      intro cat hc
      obtain ⟨r0, h0, _⟩ := (mem_scored_bucket st hnd cat k).1 hc
      unfold scoredReg
      rw [alookup_map, h0]
      rfl
    rcases hk with hk | hk | hk
    · exact hsome _ hk
    · exact hsome _ hk
    · exact hsome _ hk
  · exact ⟨sorted_sortKeysDesc _ _, sorted_sortKeysDesc _ _, sorted_sortKeysDesc _ _⟩
  · intro s
    exact ⟨filter_sortKeysDesc _ _ s, filter_sortKeysDesc _ _ s, filter_sortKeysDesc _ _ s⟩

/-- A record referenced by nine documents: score 90, high bucket. -/
def c4_recA : RepoInfo :=
  { organization := "orgA", repository_name := "alpha",
    repository_url := "https://github.com/orgA/alpha",
    referenced_in_artifacts := ["a1", "a2", "a3", "a4", "a5", "a6", "a7", "a8", "a9"],
    referenced_in_packs := ["artifact_pack.zip"], full_urls_found := [],
    priority := "unknown", language := "unknown", stars := 0, license := "unknown",
    tool_name := none, priority_score := none, priority_category := none,
    estimated_importance := none, fork_recommended := none }

/-- A record referenced by five documents: score 50, medium bucket. -/
def c4_recB : RepoInfo :=
  { c4_recA with
    organization := "orgB", repository_name := "beta",
    repository_url := "https://github.com/orgB/beta",
    referenced_in_artifacts := ["b1", "b2", "b3", "b4", "b5"] }

/-- A record referenced by one document: score 10, low bucket. -/
def c4_recC : RepoInfo :=
  { c4_recA with
    organization := "orgC", repository_name := "gamma",
    repository_url := "https://github.com/orgC/gamma",
    referenced_in_artifacts := ["c1"] }

/-- A three-record registry with empty buckets, before scoring. -/
def c4_state : AnalysisState :=
  { initial_analysis_state with
    repositories_found := [("orgA/alpha", c4_recA), ("orgB/beta", c4_recB),
      ("orgC/gamma", c4_recC)] }

theorem c4_witness :
    (c4_state.fork_high = [] ∧ c4_state.fork_medium = [] ∧ c4_state.fork_low = [] ∧
      (c4_state.repositories_found.map Prod.fst).Nodup) ∧ C4Conclusion c4_state :=
  ⟨⟨rfl, rfl, rfl, by decide⟩, c4_bucket_partition c4_state rfl rfl rfl (by decide)⟩

/-! ## C10: fork_recommended agrees with score threshold and bucket -/

/-- C10: after post-processing, every repository record carries
`fork_recommended` set exactly to "priority score at least 40", which
holds exactly when the record's key sits in the high or medium bucket,
and never when it sits in the low bucket. -/
theorem c10_fork_recommended (st : AnalysisState)
    (hh : st.fork_high = []) (hm : st.fork_medium = []) (hl : st.fork_low = [])
    (hnd : (st.repositories_found.map Prod.fst).Nodup) :
    ∀ k r, alookup k (post_process_analysis st).repositories_found = some r →
      (r.fork_recommended = some (decide (40 ≤ r.priority_score.getD 0))) ∧
      ((r.fork_recommended = some true) ↔
        (k ∈ (post_process_analysis st).fork_high ∨
         k ∈ (post_process_analysis st).fork_medium)) ∧
      ((r.fork_recommended = some true) → k ∉ (post_process_analysis st).fork_low) := by
  intro k r h
  have hrepos : (post_process_analysis st).repositories_found =
      (scoredReg st).map (fun kv => (kv.1, enrichRepo kv.2)) := rfl
  have hfh : (post_process_analysis st).fork_high =
      sortKeysDesc (scoreIn (scoredReg st)) (bucketKeys (scoredReg st) "high_priority") :=
    prioritize_high_eq st hh
  have hfm : (post_process_analysis st).fork_medium =
      sortKeysDesc (scoreIn (scoredReg st)) (bucketKeys (scoredReg st) "medium_priority") :=
    prioritize_medium_eq st hm
  have hfl : (post_process_analysis st).fork_low =
      sortKeysDesc (scoreIn (scoredReg st)) (bucketKeys (scoredReg st) "low_priority") :=
    prioritize_low_eq st hl
  rw [hrepos, alookup_map] at h
  cases hv : alookup k (scoredReg st) with
  | none =>
    rw [hv] at h
    simp at h
  | some v =>
    rw [hv] at h
    simp only [Option.map_some'] at h
    injection h with h
    obtain ⟨r0, h0, rfl⟩ := scored_lookup st k v hv
    subst h
    have hhigh := scored_bucket_iff st hnd "high_priority" k r0 h0
    have hmed := scored_bucket_iff st hnd "medium_priority" k r0 h0
    have hlow := scored_bucket_iff st hnd "low_priority" k r0 h0
    have hfr : (enrichRepo (withScoreFields r0)).fork_recommended =
        some (decide (40 ≤ priority_score r0)) := by
      simp [enrichRepo, withScoreFields]
    have hps : (enrichRepo (withScoreFields r0)).priority_score =
        some (priority_score r0) := by
      simp [enrichRepo, withScoreFields]
    have hiff : ((enrichRepo (withScoreFields r0)).fork_recommended = some true) ↔
        40 ≤ priority_score r0 := by
      rw [hfr]
      constructor
      · intro hx
        exact of_decide_eq_true (Option.some.inj hx)
      · intro hx
        rw [decide_eq_true hx]
    refine ⟨?_, ?_, ?_⟩
    · rw [hfr, hps]
      rfl
    · rw [hiff, hfh, hfm]
      constructor
      · intro h40
        by_cases c1 : 80 ≤ priority_score r0
        · exact Or.inl (hhigh.2 ((catP_high _).2 c1))
        · exact Or.inr (hmed.2 ((catP_medium _).2 ⟨h40, by omega⟩))
      · rintro (hk | hk)
        · have := (catP_high _).1 (hhigh.1 hk)
          omega
        · have := (catP_medium _).1 (hmed.1 hk)
          omega
    · intro htrue
      rw [hfl]
      intro hk
      have h40 := hiff.1 htrue
      have := (catP_low _).1 (hlow.1 hk)
      omega

theorem c10_witness :
    (c4_state.fork_high = [] ∧ c4_state.fork_medium = [] ∧ c4_state.fork_low = [] ∧
      (c4_state.repositories_found.map Prod.fst).Nodup) ∧
    (∀ k r, alookup k (post_process_analysis c4_state).repositories_found = some r →
      (r.fork_recommended = some (decide (40 ≤ r.priority_score.getD 0))) ∧
      ((r.fork_recommended = some true) ↔
        (k ∈ (post_process_analysis c4_state).fork_high ∨
         k ∈ (post_process_analysis c4_state).fork_medium)) ∧
      ((r.fork_recommended = some true) → k ∉ (post_process_analysis c4_state).fork_low)) :=
  ⟨⟨rfl, rfl, rfl, by decide⟩, c10_fork_recommended c4_state rfl rfl rfl (by decide)⟩

/-! ## C6: the nested query pass discovers osquery from an embedded
path -/

theorem takeWhile_append_not_all {p : Char → Bool} {a : List Char} (b : List Char)
    (h : a.all p = false) : (a ++ b).takeWhile p = a.takeWhile p := by
  induction a with
  | nil => simp at h
  | cons c cs ih =>
    cases hc : p c with
    | false => simp [List.takeWhile_cons, hc]
    | true =>
      have h2 : cs.all p = false := by simpa [List.all_cons, hc] using h
      simp [List.takeWhile_cons, hc, ih h2]

theorem dropWhile_append_not_all {p : Char → Bool} {a : List Char} (b : List Char)
    (h : a.all p = false) : (a ++ b).dropWhile p = a.dropWhile p ++ b := by
  induction a with
  | nil => simp at h
  | cons c cs ih =>
    cases hc : p c with
    | false => simp [List.dropWhile_cons, hc]
    | true =>
      have h2 : cs.all p = false := by simpa [List.all_cons, hc] using h
      simp [List.dropWhile_cons, hc, ih h2]

theorem dropWhile_ne_nil_of_not_all {p : Char → Bool} {a : List Char}
    (h : a.all p = false) : a.dropWhile p ≠ [] := by
  induction a with
  | nil => simp at h
  | cons c cs ih =>
    cases hc : p c with
    | false => simp [List.dropWhile_cons, hc]
    | true =>
      have h2 : cs.all p = false := by simpa [List.all_cons, hc] using h
      simpa [List.dropWhile_cons, hc] using ih h2

theorem takeWhile_dropWhile_length {p : Char → Bool} (a : List Char) :
    (a.takeWhile p).length + (a.dropWhile p).length = a.length := by
  have h := List.takeWhile_append_dropWhile (p := p) (l := a)
  have h2 := congrArg List.length h
  rw [List.length_append] at h2
  exact h2

/-- The query fragment of the C6 scenario. -/
def sys32ExampleChars : List Char := "C:\\Windows\\System32\\osqueryi.exe".toList

theorem scanWExt_cons_step (ext : List Char) (c : Char) (rest : List Char) :
    scanWExt ext 0 (c :: rest) =
      if isW c then
        (if lcHasPre ext ((c :: rest).dropWhile isW) then
          ((c :: rest).takeWhile isW ++ ((c :: rest).dropWhile isW).take ext.length) ::
            scanWExt ext (((c :: rest).takeWhile isW).length + ext.length - 1) rest
        else scanWExt ext 0 rest)
      else scanWExt ext 0 rest := by
  simp only [scanWExt]

theorem scan_base (post : List Char) :
    ("osqueryi.exe".toList) ∈ scanWExt (".exe".toList) 0 (sys32ExampleChars ++ post) := by
  simp +decide [sys32ExampleChars, scanWExt, List.takeWhile, List.dropWhile, lcHasPre, isW]

theorem scan_finds_osqueryi :
    ∀ (n : Nat) (pre : List Char) (skip : Nat) (post : List Char),
    pre.length ≤ n → skip ≤ pre.length →
    ("osqueryi.exe".toList) ∈
      scanWExt (".exe".toList) skip (pre ++ (sys32ExampleChars ++ post)) := by
  intro n
  induction n with
  | zero =>
    intro pre skip post hlen hskip
    have hpe : pre = [] := List.length_eq_zero.1 (Nat.le_zero.1 hlen)
    subst hpe
    have hse : skip = 0 := Nat.le_zero.1 hskip
    subst hse
    simpa using scan_base post
  | succ n ih =>
    intro pre skip post hlen hskip
    cases pre with
    | nil =>
      have hse : skip = 0 := Nat.le_zero.1 (by simpa using hskip)
      subst hse
      simpa using scan_base post
    | cons c pre2 =>
      rw [List.cons_append]
      cases skip with
      | succ k =>
        show ("osqueryi.exe".toList) ∈
          scanWExt (".exe".toList) (k + 1) (c :: (pre2 ++ (sys32ExampleChars ++ post)))
        have hstep : scanWExt (".exe".toList) (k + 1)
            (c :: (pre2 ++ (sys32ExampleChars ++ post))) =
            scanWExt (".exe".toList) k (pre2 ++ (sys32ExampleChars ++ post)) := by
          simp only [scanWExt]
        rw [hstep]
        exact ih pre2 k post (by simpa using Nat.le_of_succ_le_succ hlen)
          (by simpa using Nat.le_of_succ_le_succ hskip)
      | zero =>
        rw [scanWExt_cons_step]
        cases hw : isW c with
        | false =>
          simp only [hw, Bool.false_eq_true, if_false]
          exact ih pre2 0 post (by simpa using Nat.le_of_succ_le_succ hlen) (Nat.zero_le _)
        | true =>
          simp only [hw, if_true]
          cases hall : (c :: pre2).all isW with
          | true =>
            have hdw : (c :: (pre2 ++ (sys32ExampleChars ++ post))).dropWhile isW =
                ':' :: ("\\Windows\\System32\\osqueryi.exe".toList ++ post) := by
              rw [← List.cons_append]
              rw [dropWhile_append_all (sys32ExampleChars ++ post)
                (fun x hx => by
                  have := List.all_eq_true.1 hall x hx
                  exact this)]
              simp +decide [sys32ExampleChars, List.dropWhile, isW]
            rw [hdw]
            have hcond : lcHasPre (".exe".toList)
                (':' :: ("\\Windows\\System32\\osqueryi.exe".toList ++ post)) = false := by
              simp +decide [lcHasPre]
            rw [hcond]
            simp only [Bool.false_eq_true, if_false]
            exact ih pre2 0 post (by simpa using Nat.le_of_succ_le_succ hlen) (Nat.zero_le _)
          | false =>
            have hdw : (c :: (pre2 ++ (sys32ExampleChars ++ post))).dropWhile isW =
                (c :: pre2).dropWhile isW ++ (sys32ExampleChars ++ post) := by
              rw [← List.cons_append]
              exact dropWhile_append_not_all _ hall
            have htw : (c :: (pre2 ++ (sys32ExampleChars ++ post))).takeWhile isW =
                (c :: pre2).takeWhile isW := by
              rw [← List.cons_append]
              exact takeWhile_append_not_all _ hall
            rw [hdw, htw]
            have hsplit := takeWhile_dropWhile_length (p := isW) (c :: pre2)
            cases hcond : lcHasPre (".exe".toList)
                ((c :: pre2).dropWhile isW ++ (sys32ExampleChars ++ post)) with
            | false =>
              simp only [Bool.false_eq_true, if_false]
              exact ih pre2 0 post (by simpa using Nat.le_of_succ_le_succ hlen) (Nat.zero_le _)
            | true =>
              simp only [if_true]
              refine List.mem_cons_of_mem _ ?_
              have hlen4 : 4 ≤ ((c :: pre2).dropWhile isW).length := by
                rcases hshape : (c :: pre2).dropWhile isW with _ | ⟨d1, da1⟩
                · exact absurd hshape (dropWhile_ne_nil_of_not_all hall)
                · rcases hshape1 : da1 with _ | ⟨d2, da2⟩
                  · rw [hshape, hshape1] at hcond
                    simp +decide [lcHasPre, sys32ExampleChars] at hcond
                  · rcases hshape2 : da2 with _ | ⟨d3, da3⟩
                    · rw [hshape, hshape1, hshape2] at hcond
                      simp +decide [lcHasPre, sys32ExampleChars] at hcond
                    · rcases hshape3 : da3 with _ | ⟨d4, da4⟩
                      · rw [hshape, hshape1, hshape2, hshape3] at hcond
                        simp +decide [lcHasPre, sys32ExampleChars] at hcond
                      · simp only [List.length_cons]
                        omega
              have hext : (".exe".toList).length = 4 := by decide
              rw [hext]
              exact ih pre2 (((c :: pre2).takeWhile isW).length + 4 - 1) post
                (by simpa using Nat.le_of_succ_le_succ hlen)
                (by simp at hsplit; omega)

/-- The osquery catalog entry, spelled out for the token-evaluation
lemma below. -/
def osqueryEntry : KnownTool :=
  { repo_url := "https://github.com/osquery/osquery",
    patterns := [⟨"osquery", .lit "osquery"⟩, ⟨"OSQuery", .lit "OSQuery"⟩],
    priority := "high", language := "cpp",
    description := "SQL powered operating system instrumentation framework" }

/-- Cross-checking the token `osqueryi.exe` against the catalog hits
exactly the osquery entry (its literal pattern occurs inside the token). -/
theorem pvt_eq (name pack : String) (ts : List (String × ToolInfo)) :
    processVqlToken "osqueryi.exe" name pack ts =
      recordToolHit "osquery" osqueryEntry "osqueryi.exe" name pack ts := by
  simp +decide [processVqlToken, known_tools, osqueryEntry, toolHitsTok, patMatches, litHit,
    hasSub, wordHit, wordHitAux, litBHit, litBHitAux, seqHit, seqAfter, lcL, lcHasPre, isW,
    boundaryB, tailBoundary, gapOkB]

theorem patterns_recordToolHit_self (toolKey : String) (info : KnownTool)
    (patStr name pack : String) (ts : List (String × ToolInfo)) :
    ∃ t, alookup toolKey (recordToolHit toolKey info patStr name pack ts) = some t ∧
      patStr ∈ t.patterns_matched := by
  unfold recordToolHit
  rw [alookup_aupdate_self, alookup_aensure_self]
  simp only [Option.map_some']
  exact ⟨_, rfl, mem_addUnique_self patStr _⟩

theorem patterns_recordToolHit_pres (toolKey : String) (info : KnownTool)
    (patStr name pack key x : String) (ts : List (String × ToolInfo))
    (h : ∃ t, alookup key ts = some t ∧ x ∈ t.patterns_matched) :
    ∃ t, alookup key (recordToolHit toolKey info patStr name pack ts) = some t ∧
      x ∈ t.patterns_matched := by
  obtain ⟨t, ht, hx⟩ := h
  unfold recordToolHit
  by_cases hk : toolKey = key
  · subst hk
    rw [alookup_aupdate_self, alookup_aensure_self, ht]
    simp only [Option.getD_some, Option.map_some']
    exact ⟨_, rfl, mem_addUnique x patStr _ hx⟩
  · rw [alookup_aupdate_ne hk, alookup_aensure_ne hk]
    exact ⟨t, ht, hx⟩

/-- The record state C6 asserts: an osquery ToolRecord whose
patterns-matched set holds the nested token. -/
def OsqToken (ts : List (String × ToolInfo)) : Prop :=
  ∃ t, alookup "osquery" ts = some t ∧ "osqueryi.exe" ∈ t.patterns_matched

theorem osq_processVqlToken_pres (tok name pack : String) (ts : List (String × ToolInfo))
    (h : OsqToken ts) : OsqToken (processVqlToken tok name pack ts) := by
  unfold processVqlToken
  refine inv_foldl OsqToken _ known_tools ts (fun l tk hl => ?_) h
  by_cases hm : toolHitsTok tok tk.2
  · simpa [hm] using
      patterns_recordToolHit_pres tk.1 tk.2 tok name pack "osquery" "osqueryi.exe" l hl
  · simpa [hm] using hl

theorem osq_processVqlToken_establish (name pack : String) (ts : List (String × ToolInfo)) :
    OsqToken (processVqlToken "osqueryi.exe" name pack ts) := by
  rw [pvt_eq name pack ts]
  exact patterns_recordToolHit_self "osquery" osqueryEntry "osqueryi.exe" name pack ts

theorem osq_token_in_vqlTokens (pre post : List Char) :
    ("osqueryi.exe" : String) ∈ vqlTokens (pre ++ (sys32ExampleChars ++ post)) := by
  unfold vqlTokens
  have h1 := scan_finds_osqueryi (pre.length) pre 0 post (le_refl _) (Nat.zero_le _)
  refine List.mem_map.2 ⟨"osqueryi.exe".toList, ?_, by decide⟩
  exact List.mem_append_left _ (List.mem_append_left _ (List.mem_append_left _
    (List.mem_append_left _ (List.mem_append_left _ h1))))

theorem osq_vql_establish (pre post : List Char) (name pack : String) (st : AnalysisState) :
    OsqToken (analyze_vql_query (pre ++ (sys32ExampleChars ++ post)) name pack st).tools_found := by
  obtain ⟨l1, l2, heq⟩ := List.append_of_mem (osq_token_in_vqlTokens pre post)
  show OsqToken ((vqlTokens (pre ++ (sys32ExampleChars ++ post))).foldl
    (fun ts tok => processVqlToken tok name pack ts) st.tools_found)
  rw [heq, List.foldl_append, List.foldl_cons]
  refine inv_foldl OsqToken _ l2 _ (fun l tok hl => osq_processVqlToken_pres tok name pack l hl) ?_
  exact osq_processVqlToken_establish name pack _

theorem osq_vql_pres (q : List Char) (name pack : String) (st : AnalysisState)
    (h : OsqToken st.tools_found) : OsqToken (analyze_vql_query q name pack st).tools_found := by
  show OsqToken ((vqlTokens q).foldl (fun ts tok => processVqlToken tok name pack ts)
    st.tools_found)
  exact inv_foldl OsqToken _ (vqlTokens q) st.tools_found
    (fun l tok hl => osq_processVqlToken_pres tok name pack l hl) h

/-- C6: a document whose structured form has a source entry whose query
string contains the path `C:\\Windows\\System32\\osqueryi.exe` yields an
osquery ToolRecord via the nested query pass, with the matched token
`osqueryi.exe` recorded in its patterns-matched set — whatever the rest
of the document's text says. -/
theorem c6_nested_query_osquery (d : DocInput) (pack : String) (st : AnalysisState)
    (a : ArtifactData) (srcs : List SourceEntry) (src : SourceEntry) (pre post : List Char)
    (hp : d.parsed = some a) (hss : a.sources = some srcs) (hmem : src ∈ srcs)
    (hq : src.query = some (pre ++ (sys32ExampleChars ++ post))) :
    ∃ t, alookup "osquery" (analyze_artifact_file d pack st).tools_found = some t ∧
      "osqueryi.exe" ∈ t.patterns_matched := by
  unfold analyze_artifact_file
  simp only [hp, hss]
  obtain ⟨s1, s2, rfl⟩ := List.append_of_mem hmem
  rw [List.foldl_append, List.foldl_cons]
  refine inv_foldl (fun s : AnalysisState => OsqToken s.tools_found) _ s2 _
    (fun s sr hs => ?_) ?_
  · cases hq2 : sr.query with
    | none => simpa [hq2] using hs
    | some q => simpa [hq2] using osq_vql_pres q _ pack s hs
  · simp only [hq]
    exact osq_vql_establish pre post _ pack _

/-- A source entry whose query embeds the System32 osqueryi path. -/
def c6_src : SourceEntry :=
  { query := some ("run ".toList ++ (sys32ExampleChars ++ " now".toList)) }

/-- The structured form of the C6 witness document. -/
def c6_data : ArtifactData := { name := some "NestedHunt", sources := some [c6_src] }

/-- A document whose raw text never spells osquery; the token sits only
inside the nested query string. -/
def c6_doc : DocInput :=
  { stem := "q1", content := "collect windows data".toList, parsed := some c6_data }

theorem c6_witness :
    c6_doc.parsed = some c6_data ∧ c6_data.sources = some [c6_src] ∧
    (∃ t, alookup "osquery"
        (analyze_artifact_file c6_doc "artifact_pack.zip" initial_analysis_state).tools_found =
        some t ∧ "osqueryi.exe" ∈ t.patterns_matched) :=
  ⟨rfl, rfl,
   c6_nested_query_osquery c6_doc "artifact_pack.zip" initial_analysis_state c6_data
     [c6_src] c6_src ("run ".toList) (" now".toList) rfl rfl
     (List.mem_singleton.2 rfl) rfl⟩


end Pyro

